import Mathlib

/-!
# Topic rotation and retry logic of the post bot (`src/app.js`)

A shallow embedding of the stateful core of `app.js`:

* the usage store `usedTopics.json` (`loadUsedTopics`, `saveUsedTopics`, `addUsedTopic`),
* the expiry of old entries (`cleanUpUsedTopics`),
* topic selection (`getAvailableTopics`, `getRandomTopic`),
* the retry wrapper (`retryOperation`) and the post pipeline (`generatePost`).

Modelling conventions.

* A JavaScript object holding the usage mapping is an association list in property order;
  `obj[k] = v` is `assign` (overwrite in place, or append a new property).  An object never
  has two properties with the same key, which is the predicate `UniqueKeys`.
* The file holds what `saveUsedTopics` writes: an object whose keys are ordinary property
  names and whose values are date strings produced by `toISOString`.  An absent or unreadable
  file is `none`.
* A write can fail.  Every call of `saveUsedTopics` has a flag `written`: when it is `false`,
  `fs.writeFileSync` threw, the error was caught and logged (app.js lines 82-84) and the file
  is what it was before.  `writes 0`, `writes 1`, ... are the flags of the successive writes of
  a call of `getRandomTopic`.
* A stored date string is represented by the instant it denotes, in milliseconds since the
  epoch (`toISOString` has millisecond precision and `new Date(str)` reads it back exactly),
  so a timestamp is an `Int`; `new Date()` is an explicit clock reading.
* `diffDays` is the exact quotient.  In IEEE double arithmetic the quotient of an integer by
  `86400000` is rounded monotonically and `7` is a double, so the test `diffDays < 7` has the
  same outcome as on the exact quotient.
* `Math.random()` is an explicit number `random`, a double in `[0, 1)`.  The product
  `Math.random() * availableTopics.length` is the IEEE double product: the exact product
  rounded to the nearest double, ties to even (`roundDouble`).
* The recursion of `getRandomTopic` is bounded by the depth of the call stack; reaching the
  bound is the `RangeError` that JavaScript throws, `Selection.stackOverflow`.
* The effects that are not state (invoking the operation, sleeping, resetting, marking) are
  recorded in a trace of `Event`s.
-/

namespace PostBot

/-- The catalog, `const topics` (app.js lines 33-54). -/
def topics : List String :=
  [ "React.js",
    "Angular",
    "Vue.js",
    "Node.js",
    "Express.js",
    "GraphQL",
    "TypeScript",
    "Webpack",
    "Docker",
    "Kubernetes",
    "Microservices",
    "Progressive Web Apps",
    "Serverless Computing",
    "WebAssembly",
    "RESTful APIs",
    "Next.js",
    "Nuxt.js",
    "Svelte",
    "Tailwind CSS",
    "Responsive Design" ]

/-- The constant `MAX_TOPIC_AGE_DAYS` (app.js line 57). -/
def MAX_TOPIC_AGE_DAYS : ℚ := 7

/-- The usage mapping, topic to time of last use: the properties of the object in order. -/
abbrev UsedTopics := List (String × Int)

/-- The content of `usedTopics.json`; `none` when the file is absent or unreadable. -/
abbrev File := Option UsedTopics

/-- The keys of the object, `Object.keys(usedTopics)`. -/
def keys (usedTopics : UsedTopics) : List String :=
  usedTopics.map Prod.fst

/-- An object has no two properties with the same key. -/
def UniqueKeys (usedTopics : UsedTopics) : Prop :=
  (keys usedTopics).Nodup

instance (usedTopics : UsedTopics) : Decidable (UniqueKeys usedTopics) := by
  unfold UniqueKeys; infer_instance

/-- Property assignment `obj[key] = value`: an existing property keeps its place and gets the
new value, a new property is appended. -/
def assign : UsedTopics → String → Int → UsedTopics
  | [], key, value => [(key, value)]
  | (k, v) :: rest, key, value =>
    if k = key then (key, value) :: rest else (k, v) :: assign rest key value

/-- The function `loadUsedTopics` (app.js lines 62-74): the parsed file, or the empty object
when the file does not exist or cannot be read. -/
def loadUsedTopics (file : File) : UsedTopics :=
  match file with
  | some data => data
  | none => []

/-- The function `saveUsedTopics` (app.js lines 79-85).  When `fs.writeFileSync` succeeds
(`written`) the file is overwritten; when it throws, the error is caught and logged and the
file stays as it was. -/
def saveUsedTopics (written : Bool) (usedTopics : UsedTopics) (file : File) : File :=
  if written then some usedTopics else file

/-- The function `addUsedTopic` (app.js lines 90-94), `now` being the reading of `new Date()`
and `written` the success of the write. -/
def addUsedTopic (now : Int) (written : Bool) (topic : String) (file : File) : File :=
  let usedTopics := loadUsedTopics file
  let usedTopics := assign usedTopics topic now
  saveUsedTopics written usedTopics file

/-- The age of an entry in days, `(now - topicDate) / (1000 * 60 * 60 * 24)` (app.js line 104). -/
def diffDays (now topicDate : Int) : ℚ :=
  ((now - topicDate : Int) : ℚ) / (1000 * 60 * 60 * 24)

/-- The function `cleanUpUsedTopics` (app.js lines 99-110), `now` being the reading of
`new Date()` at line 101. -/
def cleanUpUsedTopics (now : Int) (usedTopics : UsedTopics) : UsedTopics :=
  usedTopics.foldl
    (fun cleanedTopics entry =>
      if diffDays now entry.2 < MAX_TOPIC_AGE_DAYS then assign cleanedTopics entry.1 entry.2
      else cleanedTopics)
    []

/-- The function `getAvailableTopics` (app.js lines 115-122): the list returned and the file
after the call, `written` being the success of the write at line 118. -/
def getAvailableTopics (now : Int) (written : Bool) (file : File) : List String × File :=
  let usedTopics := loadUsedTopics file
  let usedTopics := cleanUpUsedTopics now usedTopics
  let file := saveUsedTopics written usedTopics file
  let usedTopicKeys := keys usedTopics
  (topics.filter (fun topic => !usedTopicKeys.contains topic), file)

/-- What the program does besides reading and writing the file. -/
inductive Event where
  /-- The reset `saveUsedTopics({})` at app.js line 131, and whether its write succeeded. -/
  | reset (written : Bool)
  /-- The operation is invoked, `await operation()` at app.js line 143. -/
  | invoke
  /-- The timer `setTimeout(res, delay)` at app.js line 147. -/
  | sleep (delay : Nat)
  /-- The call `addUsedTopic(topic)` at app.js line 178. -/
  | mark (topic : String)
  deriving DecidableEq, Repr

/-- Rounding of a rational to the nearest integer, a tie going to the even one. -/
def roundHalfEven (q : ℚ) : Int :=
  if q - ⌊q⌋ < 1 / 2 then ⌊q⌋
  else if 1 / 2 < q - ⌊q⌋ then ⌊q⌋ + 1
  else if ⌊q⌋ % 2 = 0 then ⌊q⌋ else ⌊q⌋ + 1

/-- The unit in the last place of the doubles around `x`: `2 ^ (e - 52)` with `e` the binary
exponent of `x`, not below `-1022` (subnormal numbers). -/
def ulp (x : ℚ) : ℚ :=
  (2 : ℚ) ^ (max (Int.log 2 |x|) (-1022) - 52)

/-- The double nearest to `x`, ties to even: the IEEE 754 rounding of the result of an
arithmetic operation (overflow to infinity does not arise below `2 ^ 1024`). -/
def roundDouble (x : ℚ) : ℚ :=
  (roundHalfEven (x / ulp x) : ℚ) * ulp x

/-- The number `x` is a double. -/
def isDouble (x : ℚ) : Prop :=
  roundDouble x = x

instance (x : ℚ) : Decidable (isDouble x) := by
  unfold isDouble; infer_instance

/-- The index `Math.floor(Math.random() * availableTopics.length)` (app.js line 134): the
floor of the double product. -/
def randomIndex (random : ℚ) (length : Nat) : Int :=
  ⌊roundDouble (random * (length : ℚ))⌋

/-- Array access `xs[i]`: `none` is `undefined`, the value at an index outside the array. -/
def elementAt (xs : List String) (i : Int) : Option String :=
  if 0 ≤ i then xs[i.toNat]? else none

/-- How a call of `getRandomTopic` ends: it returns a topic (`none` being `undefined`), or the
call stack is exhausted and a `RangeError` is thrown. -/
inductive Selection where
  | returned (topic : Option String)
  | stackOverflow
  deriving DecidableEq, Repr

/-- The function `getRandomTopic` (app.js lines 127-136).  `random` is the value of
`Math.random()`, the first argument the number of nested calls the stack still allows,
`clock 0`, `clock 1`, ... the successive readings of `new Date()` and `writes 0`, `writes 1`,
... the success of the successive writes.  The result is how the call ends, the file after
the call and the resets performed. -/
def getRandomTopic (random : ℚ) :
    Nat → (Nat → Int) → (Nat → Bool) → File → Selection × File × List Event
  | 0, _, _, file => (Selection.stackOverflow, file, [])
  | depth + 1, clock, writes, file =>
    let (availableTopics, file) := getAvailableTopics (clock 0) (writes 0) file
    if availableTopics.length = 0 then
      let file := saveUsedTopics (writes 1) [] file
      let inner := getRandomTopic random depth (fun i => clock (i + 1))
        (fun i => writes (i + 2)) file
      (inner.1, inner.2.1, Event.reset (writes 1) :: inner.2.2)
    else
      let randomIndex := randomIndex random availableTopics.length
      (Selection.returned (elementAt availableTopics randomIndex), file, [])

/-- The function `retryOperation` (app.js lines 141-153).  The operation is a computation on
the state `σ` of whatever it talks to; the result is the value returned or the error thrown,
the state afterwards, and the invocations and waits in the order they happened.  The test
`retries > 0` is the match on the successor. -/
def retryOperation {σ ε α : Type} (operation : σ → Except ε α × σ) :
    Nat → Nat → σ → Except ε α × σ × List Event
  | retries, delay, s =>
    match operation s with
    | (Except.ok value, s) => (Except.ok value, s, [Event.invoke])
    | (Except.error error, s) =>
      match retries with
      | retries + 1 =>
        let (result, s, events) := retryOperation operation retries (delay * 2) s
        (result, s, Event.invoke :: Event.sleep delay :: events)
      | 0 => (Except.error error, s, [Event.invoke])

/-- The state of the outside world after `n` invocations of the operation from the state `s`. -/
def afterInvocations {σ ε α : Type} (operation : σ → Except ε α × σ) : Nat → σ → σ
  | 0, s => s
  | n + 1, s => afterInvocations operation n (operation s).2

/-- What invocation number `n` of the operation (the first one being number `0`) returns or
throws, the first invocation happening in state `s`. -/
def outcome {σ ε α : Type} (operation : σ → Except ε α × σ) (n : Nat) (s : σ) : Except ε α :=
  (operation (afterInvocations operation n s)).1

/-- The number of invocations of the operation in a trace. -/
def invocations (events : List Event) : Nat :=
  events.count Event.invoke

/-- The delays waited in a trace, in order. -/
def waits (events : List Event) : List Nat :=
  events.filterMap fun event =>
    match event with
    | Event.sleep delay => some delay
    | _ => none

/-- The topics marked as used in a trace, in order. -/
def marks (events : List Event) : List String :=
  events.filterMap fun event =>
    match event with
    | Event.mark topic => some topic
    | _ => none

/-- The trace of `failures + 1` attempts with a wait after each failed one, the first wait
being `delay` and each further one twice the one before. -/
def attempts : Nat → Nat → List Event
  | 0, _ => [Event.invoke]
  | failures + 1, delay => Event.invoke :: Event.sleep delay :: attempts failures (delay * 2)

/-- String conversion of a value that is a string or `undefined`, as in a template literal or
a property key. -/
def toStr (value : Option String) : String :=
  match value with
  | some s => s
  | none => "undefined"

/-- The prompt built at app.js line 161. -/
def prompt (topic : Option String) : String :=
  "Напиши информативный и интересный пост о веб-технологии \"" ++ toStr topic ++
    "\". Используй Markdown."

/-- The function `generatePost` (app.js lines 158-184).  `generate` is the call to the text
generation service with a prompt, `depth`, `clock` and `writes` are those of the call of
`getRandomTopic`, `markTime` and `markWritten` the clock reading and the success of the write
inside `addUsedTopic`.  The result is the text or `null` (`none`), the file and the service
state afterwards, and the trace.  Whatever is thrown inside the `try` block, by the retried
operation or by an exhausted call stack, is caught at line 180 and `null` is returned. -/
def generatePost {σ ε : Type} (generate : String → σ → Except ε String × σ)
    (random : ℚ) (depth : Nat) (clock : Nat → Int) (writes : Nat → Bool) (markTime : Int)
    (markWritten : Bool) (file : File) (s : σ) : Option String × File × σ × List Event :=
  match getRandomTopic random depth clock writes file with
  | (Selection.stackOverflow, file, selection) => (none, file, s, selection)
  | (Selection.returned topic, file, selection) =>
    let operation := generate (prompt topic)
    match retryOperation operation 3 1000 s with
    | (Except.ok generatedText, s, attempts) =>
      let file := addUsedTopic markTime markWritten (toStr topic) file
      (some generatedText, file, s, selection ++ attempts ++ [Event.mark (toStr topic)])
    | (Except.error _, s, attempts) =>
      (none, file, s, selection ++ attempts)

/-- A call that touches the usage store: `getAvailableTopics()`, `addUsedTopic(topic)` or
`getRandomTopic()`, with the clock readings, the success of the writes and the random draw
it sees. -/
inductive StoreOp where
  | query (now : Int) (written : Bool)
  | mark (topic : String) (now : Int) (written : Bool)
  | pick (random : ℚ) (depth : Nat) (clock : Nat → Int) (writes : Nat → Bool)

/-- Every clock reading of the call lies between `lo` and `hi`. -/
def StoreOp.between (lo hi : Int) : StoreOp → Prop
  | StoreOp.query now _ => lo ≤ now ∧ now ≤ hi
  | StoreOp.mark _ now _ => lo ≤ now ∧ now ≤ hi
  | StoreOp.pick _ _ clock _ => ∀ i, lo ≤ clock i ∧ clock i ≤ hi

/-- The file after a call and the events of the call. -/
def StoreOp.run : StoreOp → File → File × List Event
  | StoreOp.query now written, file => ((getAvailableTopics now written file).2, [])
  | StoreOp.mark topic now written, file =>
    (addUsedTopic now written topic file, [Event.mark topic])
  | StoreOp.pick random depth clock writes, file =>
    ((getRandomTopic random depth clock writes file).2.1,
      (getRandomTopic random depth clock writes file).2.2)

/-- The file after a sequence of calls and the events of these calls. -/
def runAll : List StoreOp → File → File × List Event
  | [], file => (file, [])
  | op :: ops, file =>
    ((runAll ops (op.run file).1).1, (op.run file).2 ++ (runAll ops (op.run file).1).2)

/-! ## Sample data -/

/-- A store with an entry written at time `0` and one written six days later. -/
def twoEntries : UsedTopics :=
  [("React.js", 0), ("Angular", 518400000)]

/-- A store whose only entry was written at time `0`. -/
def oneEntry : UsedTopics :=
  [("React.js", 0)]

/-- A store in which every catalog topic was used at time `now`. -/
def allUsed (now : Int) : UsedTopics :=
  topics.map (fun topic => (topic, now))

/-- An operation that throws on its first two invocations and returns a text afterwards; its
state is the number of invocations so far. -/
def failsTwice (n : Nat) : Except String String × Nat :=
  (if n < 2 then Except.error "unavailable" else Except.ok "text", n + 1)

/-- An operation that always throws, the error being the number of the invocation; its state
is the number of invocations so far. -/
def alwaysFails (n : Nat) : Except Nat String × Nat :=
  (Except.error n, n + 1)

/-- The double written `0.21052631578947367`, the one nearest to `4 / 19`. -/
def nearFourNineteenths : ℚ :=
  948126237341157 / 4503599627370496

/-- Calls after a marking: a query at time 500, the same topic marked again at time 600, a
selection at time 700 all of whose writes fail, and another topic marked at time 800. -/
def sampleCalls : List StoreOp :=
  [StoreOp.query 500 true, StoreOp.mark "React.js" 600 true,
    StoreOp.pick 0 5 (fun _ => 700) (fun _ => false), StoreOp.mark "Angular" 800 false]

/-- Calls after a marking that do not mark `"React.js"`: a query at time 500, a selection at
time 600 and another topic marked at time 700. -/
def otherCalls : List StoreOp :=
  [StoreOp.query 500 true, StoreOp.pick 0 5 (fun _ => 600) (fun _ => true),
    StoreOp.mark "Angular" 700 true]

/-! ## The usage mapping -/

theorem diffDays_lt_iff (now topicDate : Int) :
    diffDays now topicDate < MAX_TOPIC_AGE_DAYS ↔ now - topicDate < 604800000 := by
  unfold diffDays MAX_TOPIC_AGE_DAYS
  rw [div_lt_iff₀ (by norm_num)]
  have h : (7 : ℚ) * (1000 * 60 * 60 * 24) = ((604800000 : Int) : ℚ) := by norm_num
  rw [h, Int.cast_lt]

theorem keys_nil : keys [] = [] := rfl

theorem keys_cons (e : String × Int) (m : UsedTopics) : keys (e :: m) = e.1 :: keys m := rfl

theorem keys_append (m₁ m₂ : UsedTopics) : keys (m₁ ++ m₂) = keys m₁ ++ keys m₂ := by
  simp [keys]

theorem mem_keys_iff (m : UsedTopics) (k : String) : k ∈ keys m ↔ ∃ v, (k, v) ∈ m := by
  simp [keys]

theorem assign_of_not_mem (m : UsedTopics) (k : String) (v : Int) (h : k ∉ keys m) :
    assign m k v = m ++ [(k, v)] := by
  induction m with
  | nil => rfl
  | cons e rest ih =>
    obtain ⟨k', v'⟩ := e
    simp only [keys_cons, List.mem_cons, not_or] at h
    have hne : ¬ k' = k := fun h' => h.1 h'.symm
    simp [assign, hne, ih h.2]

theorem keys_assign_of_mem (m : UsedTopics) (k : String) (v : Int) (h : k ∈ keys m) :
    keys (assign m k v) = keys m := by
  induction m with
  | nil => simp [keys] at h
  | cons e rest ih =>
    obtain ⟨k', v'⟩ := e
    by_cases hk : k' = k
    · simp [assign, hk, keys_cons]
    · have h' : k ∈ keys rest := by
        simp only [keys_cons, List.mem_cons] at h
        rcases h with h | h
        · exact absurd h.symm hk
        · exact h
      simp [assign, hk, keys_cons, ih h']

theorem mem_keys_assign (m : UsedTopics) (k : String) (v : Int) (k' : String) :
    k' ∈ keys (assign m k v) ↔ k' = k ∨ k' ∈ keys m := by
  by_cases h : k ∈ keys m
  · rw [keys_assign_of_mem m k v h]
    constructor
    · exact Or.inr
    · rintro (rfl | h')
      · exact h
      · exact h'
  · rw [assign_of_not_mem m k v h, keys_append]
    simp [keys, or_comm]

theorem uniqueKeys_assign (m : UsedTopics) (k : String) (v : Int) (h : UniqueKeys m) :
    UniqueKeys (assign m k v) := by
  unfold UniqueKeys at *
  by_cases hk : k ∈ keys m
  · rw [keys_assign_of_mem m k v hk]; exact h
  · rw [assign_of_not_mem m k v hk, keys_append]
    simp only [keys, List.map_cons, List.map_nil]
    rw [List.nodup_append]
    refine ⟨h, List.nodup_singleton _, ?_⟩
    intro a ha hb
    simp only [List.mem_singleton] at hb
    subst hb
    exact hk ha

/-- The entries of `assign m k v`: the new entry, and the entries of `m` under another key. -/
theorem mem_assign_of_ne (m : UsedTopics) (k : String) (v : Int) (k' : String) (v' : Int)
    (hne : k' ≠ k) : (k', v') ∈ assign m k v ↔ (k', v') ∈ m := by
  induction m with
  | nil => simp [assign, hne]
  | cons e rest ih =>
    obtain ⟨k₀, v₀⟩ := e
    by_cases hk : k₀ = k
    · subst hk
      have h1 : ¬ (k' = k₀) := hne
      simp [assign, h1]
    · simp [assign, hk, ih]

theorem mem_assign_self (m : UsedTopics) (k : String) (v : Int) : (k, v) ∈ assign m k v := by
  induction m with
  | nil => simp [assign]
  | cons e rest ih =>
    obtain ⟨k₀, v₀⟩ := e
    by_cases hk : k₀ = k
    · simp [assign, hk]
    · simp [assign, hk, ih]

/-- With unique keys, the only entry of `assign m k v` under the key `k` is the new one. -/
theorem mem_assign_same (m : UsedTopics) (k : String) (v v' : Int) (h : UniqueKeys m) :
    (k, v') ∈ assign m k v ↔ v' = v := by
  constructor
  · intro hmem
    have hu := uniqueKeys_assign m k v h
    have hself := mem_assign_self m k v
    unfold UniqueKeys keys at hu
    have := List.inj_on_of_nodup_map hu hmem hself rfl
    exact (Prod.mk.inj this).2
  · intro hv
    rw [hv]
    exact mem_assign_self m k v

theorem mem_assign_imp (m : UsedTopics) (k : String) (v : Int) (e : String × Int)
    (h : e ∈ assign m k v) : e = (k, v) ∨ e ∈ m := by
  induction m with
  | nil => simpa [assign] using h
  | cons e₀ rest ih =>
    obtain ⟨k₀, v₀⟩ := e₀
    by_cases hk : k₀ = k
    · simp only [assign, hk, if_true, List.mem_cons] at h
      rcases h with h | h
      · exact Or.inl h
      · exact Or.inr (List.mem_cons_of_mem _ h)
    · simp only [assign, hk, if_false, List.mem_cons] at h
      rcases h with h | h
      · exact Or.inr (h ▸ List.mem_cons_self _ _)
      · rcases ih h with h' | h'
        · exact Or.inl h'
        · exact Or.inr (List.mem_cons_of_mem _ h')

/-! ## Cleanup -/

/-- The loop of `cleanUpUsedTopics` started from any object `acc` keeps the keys unique. -/
theorem uniqueKeys_cleanLoop (now : Int) (m acc : UsedTopics) (h : UniqueKeys acc) :
    UniqueKeys (m.foldl
      (fun cleanedTopics entry =>
        if diffDays now entry.2 < MAX_TOPIC_AGE_DAYS then assign cleanedTopics entry.1 entry.2
        else cleanedTopics) acc) := by
  induction m generalizing acc with
  | nil => exact h
  | cons e rest ih =>
    simp only [List.foldl_cons]
    apply ih
    split
    · exact uniqueKeys_assign _ _ _ h
    · exact h

/-- The loop of `cleanUpUsedTopics` only ever stores entries younger than seven days. -/
theorem fresh_cleanLoop (now : Int) (m acc : UsedTopics)
    (h : ∀ e ∈ acc, now - e.2 < 604800000) :
    ∀ e ∈ m.foldl
      (fun cleanedTopics entry =>
        if diffDays now entry.2 < MAX_TOPIC_AGE_DAYS then assign cleanedTopics entry.1 entry.2
        else cleanedTopics) acc, now - e.2 < 604800000 := by
  induction m generalizing acc with
  | nil => exact h
  | cons e rest ih =>
    simp only [List.foldl_cons]
    apply ih
    split
    · rename_i hf
      intro e' he'
      rcases mem_assign_imp _ _ _ _ he' with h' | h'
      · rw [h']; exact (diffDays_lt_iff now e.2).1 hf
      · exact h e' h'
    · exact h

/-- The keys left by the loop of `cleanUpUsedTopics`. -/
theorem mem_keys_cleanLoop (now : Int) (m acc : UsedTopics) (k : String) :
    k ∈ keys (m.foldl
      (fun cleanedTopics entry =>
        if diffDays now entry.2 < MAX_TOPIC_AGE_DAYS then assign cleanedTopics entry.1 entry.2
        else cleanedTopics) acc) ↔
      k ∈ keys acc ∨ ∃ v, (k, v) ∈ m ∧ now - v < 604800000 := by
  induction m generalizing acc with
  | nil => simp
  | cons e rest ih =>
    obtain ⟨k₀, v₀⟩ := e
    simp only [List.foldl_cons]
    rw [ih]
    by_cases hf : diffDays now v₀ < MAX_TOPIC_AGE_DAYS
    · have hf' := (diffDays_lt_iff now v₀).1 hf
      simp only [hf, if_true, mem_keys_assign, List.mem_cons, Prod.mk.injEq]
      constructor
      · rintro ((rfl | h) | ⟨v, h, hv⟩)
        · exact Or.inr ⟨v₀, Or.inl ⟨rfl, rfl⟩, hf'⟩
        · exact Or.inl h
        · exact Or.inr ⟨v, Or.inr h, hv⟩
      · rintro (h | ⟨v, (⟨rfl, rfl⟩ | h), hv⟩)
        · exact Or.inl (Or.inr h)
        · exact Or.inl (Or.inl rfl)
        · exact Or.inr ⟨v, h, hv⟩
    · have hf' : ¬ now - v₀ < 604800000 := fun h => hf ((diffDays_lt_iff now v₀).2 h)
      simp only [hf, if_false, List.mem_cons, Prod.mk.injEq]
      constructor
      · rintro (h | ⟨v, h, hv⟩)
        · exact Or.inl h
        · exact Or.inr ⟨v, Or.inr h, hv⟩
      · rintro (h | ⟨v, (⟨rfl, rfl⟩ | h), hv⟩)
        · exact Or.inl h
        · exact absurd hv hf'
        · exact Or.inr ⟨v, h, hv⟩

/-- On an object with unique keys, none of which is in `acc` yet, the loop of
`cleanUpUsedTopics` appends the entries younger than seven days, in order. -/
theorem cleanLoop_eq_filter (now : Int) (m acc : UsedTopics) (hu : UniqueKeys m)
    (hd : ∀ k ∈ keys m, k ∉ keys acc) :
    m.foldl
      (fun cleanedTopics entry =>
        if diffDays now entry.2 < MAX_TOPIC_AGE_DAYS then assign cleanedTopics entry.1 entry.2
        else cleanedTopics) acc =
      acc ++ m.filter (fun e => decide (now - e.2 < 604800000)) := by
  induction m generalizing acc with
  | nil => simp
  | cons e rest ih =>
    obtain ⟨k₀, v₀⟩ := e
    have hu' : UniqueKeys rest := by
      unfold UniqueKeys at *
      rw [keys_cons] at hu
      exact (List.nodup_cons.1 hu).2
    have hk₀ : k₀ ∉ keys rest := by
      unfold UniqueKeys at hu
      rw [keys_cons] at hu
      exact (List.nodup_cons.1 hu).1
    simp only [List.foldl_cons]
    by_cases hf : diffDays now v₀ < MAX_TOPIC_AGE_DAYS
    · have hf' := (diffDays_lt_iff now v₀).1 hf
      have hnew : k₀ ∉ keys acc := hd k₀ (by simp [keys_cons])
      simp only [hf, if_true]
      rw [assign_of_not_mem acc k₀ v₀ hnew, ih _ hu']
      · simp [List.filter_cons, hf']
      · intro k hk
        rw [keys_append]
        simp only [keys, List.map_cons, List.map_nil, List.mem_append, List.mem_singleton,
          not_or]
        refine ⟨hd k (by simp [keys_cons, hk]), ?_⟩
        intro hkk
        exact hk₀ (hkk ▸ hk)
    · have hf' : ¬ now - v₀ < 604800000 := fun h => hf ((diffDays_lt_iff now v₀).2 h)
      simp only [hf, if_false]
      rw [ih _ hu']
      · simp [List.filter_cons, hf']
      · intro k hk
        exact hd k (by simp [keys_cons, hk])

/-- On an object (unique keys) `cleanUpUsedTopics` is the filter keeping the entries younger
than seven days. -/
theorem cleanUpUsedTopics_eq_filter (now : Int) (m : UsedTopics) (hu : UniqueKeys m) :
    cleanUpUsedTopics now m = m.filter (fun e => decide (now - e.2 < 604800000)) := by
  unfold cleanUpUsedTopics
  rw [cleanLoop_eq_filter now m [] hu (by simp [keys])]
  simp

theorem uniqueKeys_cleanUpUsedTopics (now : Int) (m : UsedTopics) :
    UniqueKeys (cleanUpUsedTopics now m) :=
  uniqueKeys_cleanLoop now m [] (by simp [UniqueKeys, keys])

theorem fresh_cleanUpUsedTopics (now : Int) (m : UsedTopics) :
    ∀ e ∈ cleanUpUsedTopics now m, now - e.2 < 604800000 :=
  fresh_cleanLoop now m [] (by simp)

theorem mem_keys_cleanUpUsedTopics (now : Int) (m : UsedTopics) (k : String) :
    k ∈ keys (cleanUpUsedTopics now m) ↔ ∃ v, (k, v) ∈ m ∧ now - v < 604800000 := by
  unfold cleanUpUsedTopics
  rw [mem_keys_cleanLoop]
  simp [keys]

/-- Claim C6 (idempotent cleanup): cleaning the result of a cleanup again, at the same
instant, gives that result back. -/
theorem cleanUpUsedTopics_idempotent (now : Int) (m : UsedTopics) :
    cleanUpUsedTopics now (cleanUpUsedTopics now m) = cleanUpUsedTopics now m := by
  rw [cleanUpUsedTopics_eq_filter now _ (uniqueKeys_cleanUpUsedTopics now m)]
  rw [List.filter_eq_self]
  intro e he
  exact decide_eq_true (fresh_cleanUpUsedTopics now m e he)

/-- Claim C7 (cleanup retention rule): for an object `m` (unique keys) and an instant `now`,
the cleaned object contains an entry exactly when `m` contains it and its age `now - timestamp`
is strictly less than 604800000 ms; so entries aged seven days or more are removed, a retained
entry keeps its timestamp, and every key of the result is a key of `m`. -/
theorem cleanUpUsedTopics_retention (now : Int) (m : UsedTopics) (hu : UniqueKeys m) :
    (∀ topic timestamp, (topic, timestamp) ∈ cleanUpUsedTopics now m ↔
        (topic, timestamp) ∈ m ∧ now - timestamp < 604800000) ∧
    (∀ topic timestamp, (topic, timestamp) ∈ m → 604800000 ≤ now - timestamp →
        topic ∉ keys (cleanUpUsedTopics now m)) ∧
    (∀ topic, topic ∈ keys (cleanUpUsedTopics now m) → topic ∈ keys m) := by
  refine ⟨?_, ?_, ?_⟩
  · intro topic timestamp
    rw [cleanUpUsedTopics_eq_filter now m hu]
    simp [List.mem_filter]
  · intro topic timestamp hmem hold hkey
    rw [mem_keys_cleanUpUsedTopics] at hkey
    obtain ⟨v, hv, hfresh⟩ := hkey
    have heq : (topic, v) = (topic, timestamp) :=
      List.inj_on_of_nodup_map hu hv hmem rfl
    have hvt : v = timestamp := (Prod.mk.inj heq).2
    omega
  · intro topic hkey
    rw [mem_keys_cleanUpUsedTopics] at hkey
    obtain ⟨v, hv, _⟩ := hkey
    exact (mem_keys_iff m topic).2 ⟨v, hv⟩

/-- Witness of C7: at time 604800000 the entry of `twoEntries` written at time `0` is exactly
seven days old and the other one is a day old. -/
theorem cleanUpUsedTopics_retention_witness :
    UniqueKeys twoEntries ∧
    ((∀ topic timestamp, (topic, timestamp) ∈ cleanUpUsedTopics 604800000 twoEntries ↔
        (topic, timestamp) ∈ twoEntries ∧ 604800000 - timestamp < 604800000) ∧
      (∀ topic timestamp, (topic, timestamp) ∈ twoEntries →
        604800000 ≤ 604800000 - timestamp →
        topic ∉ keys (cleanUpUsedTopics 604800000 twoEntries)) ∧
      (∀ topic, topic ∈ keys (cleanUpUsedTopics 604800000 twoEntries) →
        topic ∈ keys twoEntries)) :=
  ⟨by decide, cleanUpUsedTopics_retention 604800000 twoEntries (by decide)⟩


/-! ## Available topics -/

theorem loadUsedTopics_saveUsedTopics (written : Bool) (usedTopics : UsedTopics) (file : File) :
    loadUsedTopics (saveUsedTopics written usedTopics file) =
      if written then usedTopics else loadUsedTopics file := by
  cases written <;> rfl

theorem getAvailableTopics_fst (now : Int) (written : Bool) (file : File) :
    (getAvailableTopics now written file).1 =
      topics.filter
        (fun topic => decide (topic ∉ keys (cleanUpUsedTopics now (loadUsedTopics file)))) := by
  unfold getAvailableTopics
  simp only
  apply List.filter_congr
  intro t _
  simp

theorem getAvailableTopics_snd (now : Int) (written : Bool) (file : File) :
    (getAvailableTopics now written file).2 =
      if written then some (cleanUpUsedTopics now (loadUsedTopics file)) else file := by
  cases written <;> rfl

theorem mem_getAvailableTopics (now : Int) (written : Bool) (file : File) (topic : String) :
    topic ∈ (getAvailableTopics now written file).1 ↔
      topic ∈ topics ∧ topic ∉ keys (cleanUpUsedTopics now (loadUsedTopics file)) := by
  rw [getAvailableTopics_fst]
  simp [List.mem_filter]

/-- With unique keys the entries of the cleaned store are the entries younger than seven days. -/
theorem mem_cleanUpUsedTopics (now : Int) (m : UsedTopics) (hu : UniqueKeys m) (k : String)
    (v : Int) : (k, v) ∈ cleanUpUsedTopics now m ↔ (k, v) ∈ m ∧ now - v < 604800000 := by
  rw [cleanUpUsedTopics_eq_filter now m hu]
  simp [List.mem_filter]

theorem cleanUpUsedTopics_twoEntries :
    cleanUpUsedTopics 604800000 twoEntries = [("Angular", 518400000)] := by
  rw [cleanUpUsedTopics_eq_filter _ _ (by decide)]
  decide

/-- Counterexample to C8 as stated: the store `twoEntries` is read at time 604800000, when
its first entry is seven days old, and the write fails; the file afterwards is the uncleaned
store, not the cleaned one. -/
theorem getAvailableTopics_failed_write :
    (getAvailableTopics 604800000 false (some twoEntries)).2 = some twoEntries ∧
    (getAvailableTopics 604800000 false (some twoEntries)).2 ≠
      some (cleanUpUsedTopics 604800000 (loadUsedTopics (some twoEntries))) := by
  refine ⟨rfl, ?_⟩
  rw [getAvailableTopics_snd]
  simp only [loadUsedTopics, cleanUpUsedTopics_twoEntries]
  decide

/-- Claim C8, amended (available topics): for every file and instant, `getAvailableTopics`
returns the catalog topics that are not a key of the cleaned store, in catalog order; the
file afterwards holds the cleaned store when the write succeeds and is unchanged when the
write fails; two stores with the same entries under catalog keys (so differing only in keys
outside the catalog) give the same list. -/
theorem getAvailableTopics_spec (now : Int) (written : Bool) (file : File) :
    (getAvailableTopics now written file).1 =
      topics.filter
        (fun topic => decide (topic ∉ keys (cleanUpUsedTopics now (loadUsedTopics file)))) ∧
    (getAvailableTopics now written file).1.Sublist topics ∧
    (∀ topic, topic ∈ (getAvailableTopics now written file).1 ↔
      topic ∈ topics ∧ topic ∉ keys (cleanUpUsedTopics now (loadUsedTopics file))) ∧
    (getAvailableTopics now written file).2 =
      (if written then some (cleanUpUsedTopics now (loadUsedTopics file)) else file) ∧
    (∀ (other : File) (otherWritten : Bool),
      (∀ topic ∈ topics, ∀ timestamp,
        (topic, timestamp) ∈ loadUsedTopics other ↔ (topic, timestamp) ∈ loadUsedTopics file) →
      (getAvailableTopics now otherWritten other).1 = (getAvailableTopics now written file).1) := by
  refine ⟨getAvailableTopics_fst now written file, ?_, mem_getAvailableTopics now written file,
    getAvailableTopics_snd now written file, ?_⟩
  · rw [getAvailableTopics_fst]
    exact List.filter_sublist _
  · intro other otherWritten h
    rw [getAvailableTopics_fst, getAvailableTopics_fst]
    apply List.filter_congr
    intro t ht
    have : t ∈ keys (cleanUpUsedTopics now (loadUsedTopics other)) ↔
        t ∈ keys (cleanUpUsedTopics now (loadUsedTopics file)) := by
      rw [mem_keys_cleanUpUsedTopics, mem_keys_cleanUpUsedTopics]
      constructor
      · rintro ⟨v, hv, hf⟩
        exact ⟨v, (h t ht v).1 hv, hf⟩
      · rintro ⟨v, hv, hf⟩
        exact ⟨v, (h t ht v).2 hv, hf⟩
    simp [this]

/-- Witness of the amended C8: adding a key outside the catalog to `twoEntries` does not
change the list returned at time 604800000, and a successful write leaves the cleaned store. -/
theorem getAvailableTopics_spec_witness :
    (∀ topic ∈ topics, ∀ timestamp,
      (topic, timestamp) ∈ loadUsedTopics (some (("jQuery", 604800000) :: twoEntries)) ↔
        (topic, timestamp) ∈ loadUsedTopics (some twoEntries)) ∧
    (getAvailableTopics 604800000 false (some (("jQuery", 604800000) :: twoEntries))).1 =
      (getAvailableTopics 604800000 true (some twoEntries)).1 ∧
    (getAvailableTopics 604800000 true (some twoEntries)).2 =
      (if true then some (cleanUpUsedTopics 604800000 (loadUsedTopics (some twoEntries)))
        else some twoEntries) := by
  have h : ∀ topic ∈ topics, ∀ timestamp,
      (topic, timestamp) ∈ loadUsedTopics (some (("jQuery", 604800000) :: twoEntries)) ↔
        (topic, timestamp) ∈ loadUsedTopics (some twoEntries) := by
    intro topic ht timestamp
    have hne : topic ≠ "jQuery" := by
      rintro rfl
      exact absurd ht (by decide)
    simp [loadUsedTopics, hne]
  exact ⟨h, (getAvailableTopics_spec 604800000 true (some twoEntries)).2.2.2.2 _ false h,
    (getAvailableTopics_spec 604800000 true (some twoEntries)).2.2.2.1⟩

/-! ## The double product -/

theorem roundHalfEven_le (q : ℚ) : (roundHalfEven q : ℚ) ≤ q + 1 / 2 := by
  unfold roundHalfEven
  have h1 := Int.floor_le q
  split_ifs with h₁ h₂ h₃
  · linarith
  · push_cast; linarith
  · linarith
  · push_cast; linarith

theorem roundHalfEven_nonneg (q : ℚ) (h : 0 ≤ q) : 0 ≤ roundHalfEven q := by
  unfold roundHalfEven
  have h1 : 0 ≤ ⌊q⌋ := Int.floor_nonneg.2 h
  split_ifs <;> omega

theorem roundHalfEven_intCast (k : Int) : roundHalfEven (k : ℚ) = k := by
  simp [roundHalfEven]

/-- A tie above an odd integer goes up. -/
theorem roundHalfEven_tie_odd (k : Int) (hodd : k % 2 = 1) :
    roundHalfEven ((k : ℚ) + 1 / 2) = k + 1 := by
  have hfloor : ⌊(k : ℚ) + 1 / 2⌋ = k := by
    rw [Int.floor_eq_iff]
    constructor <;> linarith
  unfold roundHalfEven
  rw [hfloor]
  have h1 : ¬ ((k : ℚ) + 1 / 2 - k < 1 / 2) := by simp
  have h2 : ¬ ((1 : ℚ) / 2 < (k : ℚ) + 1 / 2 - k) := by simp
  have h3 : ¬ (k % 2 = 0) := by omega
  rw [if_neg h1, if_neg h2, if_neg h3]

theorem ulp_pos (x : ℚ) : 0 < ulp x := by
  unfold ulp
  positivity

/-- The unit in the last place of a positive number whose binary exponent is `e`. -/
theorem ulp_of_exponent (x : ℚ) (e : Int) (he : -1022 ≤ e) (hlo : (2 : ℚ) ^ e ≤ x)
    (hhi : x < (2 : ℚ) ^ (e + 1)) : ulp x = (2 : ℚ) ^ (e - 52) := by
  have hpos : 0 < x := lt_of_lt_of_le (by positivity) hlo
  have hlog : Int.log 2 x = e := by
    have h1 : e ≤ Int.log 2 x := by
      rw [← Int.zpow_le_iff_le_log (by norm_num) hpos]
      exact_mod_cast hlo
    have h2 : Int.log 2 x < e + 1 := by
      rw [← Int.lt_zpow_iff_log_lt (by norm_num) hpos]
      exact_mod_cast hhi
    omega
  unfold ulp
  rw [abs_of_pos hpos, hlog, max_eq_left he]

theorem roundDouble_le (x : ℚ) : roundDouble x ≤ x + ulp x / 2 := by
  unfold roundDouble
  have h := roundHalfEven_le (x / ulp x)
  have hu := ulp_pos x
  calc (roundHalfEven (x / ulp x) : ℚ) * ulp x ≤ (x / ulp x + 1 / 2) * ulp x :=
        mul_le_mul_of_nonneg_right h hu.le
    _ = x + ulp x / 2 := by field_simp; ring

theorem roundDouble_nonneg (x : ℚ) (h : 0 ≤ x) : 0 ≤ roundDouble x := by
  unfold roundDouble
  have hu := ulp_pos x
  have := roundHalfEven_nonneg (x / ulp x) (div_nonneg h hu.le)
  exact mul_nonneg (by exact_mod_cast this) hu.le

theorem roundDouble_zero : roundDouble 0 = 0 := by
  simp [roundDouble, roundHalfEven]

theorem isDouble_zero : isDouble 0 := roundDouble_zero

/-- Half a unit in the last place of a positive number is at most its `2 ^ 53`-th part, or it
is at most `1 / 4` and so is the number (subnormal numbers). -/
theorem ulp_half_le (x : ℚ) (hx : 0 < x) :
    ulp x / 2 ≤ x / 2 ^ 53 ∨ (ulp x / 2 ≤ 1 / 4 ∧ x < 1 / 4) := by
  have habs : |x| = x := abs_of_pos hx
  by_cases hn : (-1022 : Int) ≤ Int.log 2 x
  · left
    have hu : ulp x = (2 : ℚ) ^ (Int.log 2 x) / 2 ^ 52 := by
      unfold ulp
      rw [habs, max_eq_left hn, zpow_sub₀ (by norm_num)]
      norm_cast
    have hle : (2 : ℚ) ^ (Int.log 2 x) ≤ x := by
      have := Int.zpow_log_le_self (b := 2) (by norm_num) hx
      exact_mod_cast this
    rw [hu]
    have h53 : (2 : ℚ) ^ 53 = 2 ^ 52 * 2 := by norm_num
    rw [div_div, ← h53]
    exact div_le_div_of_nonneg_right hle (by positivity)
  · right
    push_neg at hn
    have hu : ulp x = (2 : ℚ) ^ (-1074 : Int) := by
      unfold ulp
      rw [habs, max_eq_right hn.le]
      norm_num
    have hsmall : (2 : ℚ) ^ (-1074 : Int) ≤ 2 ^ (-2 : Int) :=
      zpow_le_zpow_right₀ (by norm_num) (by norm_num)
    have hx' : x < (2 : ℚ) ^ (Int.log 2 x + 1) := by
      have := Int.lt_zpow_succ_log_self (b := 2) (by norm_num) x
      exact_mod_cast this
    have hx'' : (2 : ℚ) ^ (Int.log 2 x + 1) ≤ 2 ^ (-2 : Int) :=
      zpow_le_zpow_right₀ (by norm_num) (by omega)
    have h4 : (2 : ℚ) ^ (-2 : Int) = 1 / 4 := by norm_num
    rw [h4] at hsmall hx''
    constructor
    · rw [hu]; linarith
    · linarith

/-- A double below `1` is at most `1 - 2 ^ (-53)`. -/
theorem isDouble_lt_one (r : ℚ) (hd : isDouble r) (h1 : r < 1) : r ≤ 1 - 1 / 2 ^ 53 := by
  by_cases hhalf : r < 1 / 2
  · have : (1 : ℚ) / 2 ≤ 1 - 1 / 2 ^ 53 := by norm_num
    linarith
  · push_neg at hhalf
    have hu : ulp r = 1 / 2 ^ 53 := by
      rw [ulp_of_exponent r (-1) (by norm_num) (by norm_num; linarith) (by simpa using h1)]
      norm_num
    unfold isDouble roundDouble at hd
    rw [hu] at hd
    have hk : (roundHalfEven (r / (1 / 2 ^ 53)) : ℚ) < 2 ^ 53 := by
      have : (roundHalfEven (r / (1 / 2 ^ 53)) : ℚ) * (1 / 2 ^ 53) < 1 := by rw [hd]; exact h1
      have h2 : (0 : ℚ) < 2 ^ 53 := by positivity
      rw [mul_one_div, div_lt_iff₀ h2] at this
      linarith
    have hk' : roundHalfEven (r / (1 / 2 ^ 53)) ≤ 2 ^ 53 - 1 := by
      have : roundHalfEven (r / (1 / 2 ^ 53)) < 2 ^ 53 := by exact_mod_cast hk
      omega
    have hk'' : (roundHalfEven (r / (1 / 2 ^ 53)) : ℚ) ≤ 2 ^ 53 - 1 := by exact_mod_cast hk'
    rw [← hd]
    calc (roundHalfEven (r / (1 / 2 ^ 53)) : ℚ) * (1 / 2 ^ 53)
        ≤ (2 ^ 53 - 1) * (1 / 2 ^ 53) := mul_le_mul_of_nonneg_right hk'' (by positivity)
      _ = 1 - 1 / 2 ^ 53 := by norm_num

/-- The double product of a double in `[0, 1)` and a positive length is below the length. -/
theorem roundDouble_mul_lt (r : ℚ) (n : Nat) (hd : isDouble r) (h0 : 0 ≤ r) (h1 : r < 1)
    (hn : 0 < n) : roundDouble (r * (n : ℚ)) < n := by
  have hn' : (1 : ℚ) ≤ (n : ℚ) := by exact_mod_cast hn
  have hr := isDouble_lt_one r hd h1
  rcases eq_or_lt_of_le (mul_nonneg h0 (by linarith : (0 : ℚ) ≤ (n : ℚ))) with hz | hx
  · rw [← hz, roundDouble_zero]
    linarith
  · have hle := roundDouble_le (r * (n : ℚ))
    have hxn : r * (n : ℚ) ≤ (1 - 1 / 2 ^ 53) * n :=
      mul_le_mul_of_nonneg_right hr (by linarith)
    rcases ulp_half_le (r * (n : ℚ)) hx with hu | ⟨hu, hsmall⟩
    · have h3 : r * (n : ℚ) / 2 ^ 53 ≤ (1 - 1 / 2 ^ 53) * n / 2 ^ 53 :=
        div_le_div_of_nonneg_right hxn (by positivity)
      have h4 : (1 - 1 / 2 ^ 53) * (n : ℚ) + (1 - 1 / 2 ^ 53) * n / 2 ^ 53 < n := by
        have : (1 - 1 / 2 ^ 53) * (n : ℚ) + (1 - 1 / 2 ^ 53) * n / 2 ^ 53 =
            (n : ℚ) * (1 - 1 / 2 ^ 106) := by ring
        rw [this]
        have h5 : (1 : ℚ) - 1 / 2 ^ 106 < 1 := by norm_num
        nlinarith
      linarith
    · linarith

theorem randomIndex_nonneg (random : ℚ) (length : Nat) (h0 : 0 ≤ random) :
    0 ≤ randomIndex random length := by
  unfold randomIndex
  exact Int.floor_nonneg.2 (roundDouble_nonneg _ (mul_nonneg h0 (Nat.cast_nonneg _)))

theorem randomIndex_lt (random : ℚ) (length : Nat) (hd : isDouble random) (h0 : 0 ≤ random)
    (h1 : random < 1) (hpos : 0 < length) : randomIndex random length < length := by
  unfold randomIndex
  rw [Int.floor_lt]
  exact_mod_cast roundDouble_mul_lt random length hd h0 h1 hpos

theorem randomIndex_zero (length : Nat) : randomIndex 0 length = 0 := by
  simp [randomIndex, roundDouble_zero]

theorem isDouble_nearFourNineteenths : isDouble nearFourNineteenths := by
  unfold isDouble roundDouble
  rw [ulp_of_exponent nearFourNineteenths (-3) (by norm_num)
    (by norm_num [nearFourNineteenths]) (by norm_num [nearFourNineteenths])]
  have h : nearFourNineteenths / (2 : ℚ) ^ ((-3 : Int) - 52) =
      ((7585009898729256 : Int) : ℚ) := by
    norm_num [nearFourNineteenths]
  rw [h, roundHalfEven_intCast]
  norm_num [nearFourNineteenths]

/-- The double product `0.21052631578947367 * 19` is `4`, although the exact product is below
`4`: it lies half way between two doubles and the tie goes to the even one. -/
theorem randomIndex_nearFourNineteenths :
    randomIndex nearFourNineteenths 19 = 4 ∧ ⌊nearFourNineteenths * ((19 : Nat) : ℚ)⌋ = 3 := by
  constructor
  · unfold randomIndex roundDouble
    rw [ulp_of_exponent (nearFourNineteenths * ((19 : Nat) : ℚ)) 1 (by norm_num)
      (by norm_num [nearFourNineteenths]) (by norm_num [nearFourNineteenths])]
    have h : nearFourNineteenths * ((19 : Nat) : ℚ) / (2 : ℚ) ^ ((1 : Int) - 52) =
        ((9007199254740991 : Int) : ℚ) + 1 / 2 := by
      norm_num [nearFourNineteenths]
    rw [h, roundHalfEven_tie_odd _ (by decide)]
    norm_num
  · rw [Int.floor_eq_iff]
    constructor <;> norm_num [nearFourNineteenths]

/-! ## Topic selection -/

theorem topics_ne_nil : topics ≠ [] := by
  simp [topics]

theorem cleanUpUsedTopics_nil (now : Int) : cleanUpUsedTopics now [] = [] := rfl

/-- On the empty store every catalog topic is available, and the store stays empty. -/
theorem getAvailableTopics_empty (now : Int) (written : Bool) :
    getAvailableTopics now written (some []) = (topics, some []) := by
  cases written <;>
    simp [getAvailableTopics, loadUsedTopics, saveUsedTopics, cleanUpUsedTopics_nil, keys]

/-- An index produced from a double in `[0, 1)` selects an element of a non-empty array. -/
theorem elementAt_randomIndex (xs : List String) (random : ℚ) (hd : isDouble random)
    (h0 : 0 ≤ random) (h1 : random < 1) (hne : xs ≠ []) :
    ∃ x, elementAt xs (randomIndex random xs.length) = some x ∧
      xs[(randomIndex random xs.length).toNat]? = some x ∧ x ∈ xs := by
  have hpos : 0 < xs.length := List.length_pos.2 hne
  have hlo := randomIndex_nonneg random xs.length h0
  have hhi := randomIndex_lt random xs.length hd h0 h1 hpos
  have hlt : (randomIndex random xs.length).toNat < xs.length := by omega
  refine ⟨xs[(randomIndex random xs.length).toNat], ?_, ?_, ?_⟩
  · unfold elementAt
    rw [if_pos hlo]
    exact List.getElem?_eq_getElem hlt
  · exact List.getElem?_eq_getElem hlt
  · exact List.getElem_mem _

theorem getRandomTopic_zero (random : ℚ) (clock : Nat → Int) (writes : Nat → Bool)
    (file : File) :
    getRandomTopic random 0 clock writes file = (Selection.stackOverflow, file, []) := rfl

/-- The branch of `getRandomTopic` without reset (app.js lines 134-135). -/
theorem getRandomTopic_of_available (random : ℚ) (depth : Nat) (clock : Nat → Int)
    (writes : Nat → Bool) (file : File)
    (hne : (getAvailableTopics (clock 0) (writes 0) file).1 ≠ []) :
    getRandomTopic random (depth + 1) clock writes file =
      (Selection.returned (elementAt (getAvailableTopics (clock 0) (writes 0) file).1
          (randomIndex random (getAvailableTopics (clock 0) (writes 0) file).1.length)),
        (getAvailableTopics (clock 0) (writes 0) file).2, []) := by
  have hlen : ¬ (getAvailableTopics (clock 0) (writes 0) file).1.length = 0 := by
    rw [List.length_eq_zero]; exact hne
  simp only [getRandomTopic]
  rw [if_neg hlen]

/-- The branch of `getRandomTopic` with a reset (app.js lines 130-132). -/
theorem getRandomTopic_of_exhausted (random : ℚ) (depth : Nat) (clock : Nat → Int)
    (writes : Nat → Bool) (file : File)
    (hnil : (getAvailableTopics (clock 0) (writes 0) file).1 = []) :
    getRandomTopic random (depth + 1) clock writes file =
      ((getRandomTopic random depth (fun i => clock (i + 1)) (fun i => writes (i + 2))
          (saveUsedTopics (writes 1) [] (getAvailableTopics (clock 0) (writes 0) file).2)).1,
        (getRandomTopic random depth (fun i => clock (i + 1)) (fun i => writes (i + 2))
          (saveUsedTopics (writes 1) [] (getAvailableTopics (clock 0) (writes 0) file).2)).2.1,
        Event.reset (writes 1) ::
          (getRandomTopic random depth (fun i => clock (i + 1)) (fun i => writes (i + 2))
            (saveUsedTopics (writes 1) []
              (getAvailableTopics (clock 0) (writes 0) file).2)).2.2) := by
  have hlen : (getAvailableTopics (clock 0) (writes 0) file).1.length = 0 := by
    rw [List.length_eq_zero]; exact hnil
  simp only [getRandomTopic]
  rw [if_pos hlen]

/-- When no topic is available and the write of the reset succeeds, the recursive call sees
the empty store and selects from the whole catalog. -/
theorem getRandomTopic_of_reset (random : ℚ) (depth : Nat) (clock : Nat → Int)
    (writes : Nat → Bool) (file : File)
    (hnil : (getAvailableTopics (clock 0) (writes 0) file).1 = []) (hw : writes 1 = true) :
    getRandomTopic random (depth + 2) clock writes file =
      (Selection.returned (elementAt topics (randomIndex random topics.length)), some [],
        [Event.reset true]) := by
  rw [getRandomTopic_of_exhausted random (depth + 1) clock writes file hnil, hw]
  have hsave : saveUsedTopics true [] (getAvailableTopics (clock 0) (writes 0) file).2 =
      some [] := rfl
  rw [hsave, getRandomTopic_of_available random depth _ _ (some [])
    (by rw [getAvailableTopics_empty]; exact topics_ne_nil)]
  simp only [getAvailableTopics_empty]

/-- When every catalog topic stays in its cooldown window and every write fails,
`getRandomTopic` resets in vain until the call stack is exhausted, whatever its depth. -/
theorem getRandomTopic_never_returns (random : ℚ) (depth : Nat) (clock : Nat → Int)
    (file : File)
    (hfresh : ∀ i, ∀ topic ∈ topics, ∃ timestamp,
      (topic, timestamp) ∈ loadUsedTopics file ∧ clock i - timestamp < 604800000) :
    getRandomTopic random depth clock (fun _ => false) file =
      (Selection.stackOverflow, file, List.replicate depth (Event.reset false)) := by
  induction depth generalizing clock with
  | zero => rfl
  | succ depth ih =>
    have hnil : (getAvailableTopics (clock 0) false file).1 = [] := by
      rw [List.eq_nil_iff_forall_not_mem]
      intro t ht
      rw [mem_getAvailableTopics] at ht
      exact ht.2 ((mem_keys_cleanUpUsedTopics _ _ _).2 (hfresh 0 t ht.1))
    rw [getRandomTopic_of_exhausted random depth clock (fun _ => false) file hnil]
    have hfile : saveUsedTopics false [] (getAvailableTopics (clock 0) false file).2 = file :=
      rfl
    rw [hfile, ih (fun i => clock (i + 1)) (fun i => hfresh (i + 1))]
    rfl

/-- The events of `getRandomTopic` are resets. -/
theorem getRandomTopic_events (random : ℚ) (depth : Nat) (clock : Nat → Int)
    (writes : Nat → Bool) (file : File) :
    ∀ event ∈ (getRandomTopic random depth clock writes file).2.2,
      ∃ i, event = Event.reset (writes i) := by
  induction depth generalizing clock writes file with
  | zero => simp [getRandomTopic_zero]
  | succ depth ih =>
    by_cases hnil : (getAvailableTopics (clock 0) (writes 0) file).1 = []
    · rw [getRandomTopic_of_exhausted random depth clock writes file hnil]
      intro event hmem
      simp only [List.mem_cons] at hmem
      rcases hmem with rfl | hmem
      · exact ⟨1, rfl⟩
      · obtain ⟨i, hi⟩ := ih _ _ _ event hmem
        exact ⟨i + 2, hi⟩
    · rw [getRandomTopic_of_available random depth clock writes file hnil]
      simp

theorem marks_of_resets (events : List Event) (writes : Nat → Bool)
    (h : ∀ event ∈ events, ∃ i, event = Event.reset (writes i)) : marks events = [] := by
  induction events with
  | nil => rfl
  | cons e rest ih =>
    obtain ⟨i, rfl⟩ := h e (List.mem_cons_self _ _)
    have := ih (fun event hmem => h event (List.mem_cons_of_mem _ hmem))
    simp only [marks] at this
    simp [marks, this]

theorem invocations_of_resets (events : List Event) (writes : Nat → Bool)
    (h : ∀ event ∈ events, ∃ i, event = Event.reset (writes i)) : invocations events = 0 := by
  unfold invocations
  rw [List.count_eq_zero]
  intro hmem
  obtain ⟨i, hi⟩ := h _ hmem
  exact absurd hi (by simp)

/-- A property of the store that cleaning preserves, and that the empty store has if a reset
is written, holds after `getRandomTopic` if it held before. -/
theorem getRandomTopic_invariant (P : UsedTopics → Prop) (random : ℚ) (depth : Nat)
    (clock : Nat → Int) (writes : Nat → Bool) (file : File)
    (hclean : ∀ i m, P m → P (cleanUpUsedTopics (clock i) m))
    (hreset : Event.reset true ∈ (getRandomTopic random depth clock writes file).2.2 → P [])
    (h : P (loadUsedTopics file)) :
    P (loadUsedTopics (getRandomTopic random depth clock writes file).2.1) := by
  induction depth generalizing clock writes file with
  | zero => exact h
  | succ depth ih =>
    have h1 : P (loadUsedTopics (getAvailableTopics (clock 0) (writes 0) file).2) := by
      rw [getAvailableTopics_snd]
      cases writes 0
      · exact h
      · exact hclean 0 _ h
    by_cases hnil : (getAvailableTopics (clock 0) (writes 0) file).1 = []
    · rw [getRandomTopic_of_exhausted random depth clock writes file hnil] at hreset ⊢
      simp only [List.mem_cons] at hreset
      apply ih
      · intro i m hm
        exact hclean (i + 1) m hm
      · intro hmem
        exact hreset (Or.inr hmem)
      · rw [loadUsedTopics_saveUsedTopics]
        by_cases hw : writes 1 = true
        · rw [if_pos hw]
          exact hreset (Or.inl (by rw [hw]))
        · rw [if_neg hw]
          exact h1
    · rw [getRandomTopic_of_available random depth clock writes file hnil]
      exact h1

/-- The topic that `getRandomTopic` returns is a catalog topic; the store left behind has no
entry of it younger than seven days at the last clock reading, and it is not a key of that
store when the last write of the cleaned store succeeded. -/
theorem getRandomTopic_selected (random : ℚ) (depth : Nat) (clock : Nat → Int)
    (writes : Nat → Bool) (file : File) (topic : Option String)
    (hd : isDouble random) (h0 : 0 ≤ random) (h1 : random < 1)
    (hsel : (getRandomTopic random depth clock writes file).1 = Selection.returned topic) :
    ∃ name, topic = some name ∧ name ∈ topics ∧
      (∀ timestamp,
        (name, timestamp) ∈
          loadUsedTopics (getRandomTopic random depth clock writes file).2.1 →
        604800000 ≤
          clock (getRandomTopic random depth clock writes file).2.2.length - timestamp) ∧
      (writes (2 * (getRandomTopic random depth clock writes file).2.2.length) = true →
        name ∉ keys (loadUsedTopics (getRandomTopic random depth clock writes file).2.1)) := by
  induction depth generalizing clock writes file with
  | zero => simp [getRandomTopic_zero] at hsel
  | succ depth ih =>
    by_cases hnil : (getAvailableTopics (clock 0) (writes 0) file).1 = []
    · rw [getRandomTopic_of_exhausted random depth clock writes file hnil] at hsel ⊢
      obtain ⟨name, hname, hcat, hold, hkey⟩ := ih _ _ _ hsel
      refine ⟨name, hname, hcat, ?_, ?_⟩
      · intro timestamp hmem
        have := hold timestamp hmem
        simpa [List.length_cons] using this
      · intro hw
        apply hkey
        simp only [List.length_cons] at hw
        rw [← hw]
        congr 1
    · rw [getRandomTopic_of_available random depth clock writes file hnil] at hsel ⊢
      obtain ⟨x, hx, _, hmem⟩ := elementAt_randomIndex
        (getAvailableTopics (clock 0) (writes 0) file).1 random hd h0 h1 hnil
      simp only [hx, Selection.returned.injEq] at hsel
      have hav := (mem_getAvailableTopics _ _ _ _).1 hmem
      refine ⟨x, hsel.symm, hav.1, ?_, ?_⟩
      · intro timestamp hin
        simp only [List.length_nil, getAvailableTopics_snd] at hin ⊢
        by_contra hlt
        push_neg at hlt
        cases hw : writes 0
        · rw [hw] at hin
          simp only [Bool.false_eq_true, if_false] at hin
          exact hav.2 ((mem_keys_cleanUpUsedTopics _ _ _).2 ⟨timestamp, hin, hlt⟩)
        · rw [hw] at hin
          simp only [if_true, loadUsedTopics] at hin
          exact hav.2 ((mem_keys_iff _ _).2 ⟨timestamp, hin⟩)
      · intro hw
        simp only [List.length_nil, Nat.mul_zero] at hw
        simp only [getAvailableTopics_snd, hw, if_true, loadUsedTopics]
        exact hav.2

/-- With a stack depth of at least two, `getRandomTopic` returns a topic whenever a topic is
available or the write of the reset succeeds. -/
theorem getRandomTopic_returns (random : ℚ) (depth : Nat) (clock : Nat → Int)
    (writes : Nat → Bool) (file : File)
    (h : (getAvailableTopics (clock 0) (writes 0) file).1 ≠ [] ∨ writes 1 = true) :
    ∃ topic, (getRandomTopic random (depth + 2) clock writes file).1 =
      Selection.returned topic := by
  by_cases hnil : (getAvailableTopics (clock 0) (writes 0) file).1 = []
  · rcases h with h | hw
    · exact absurd hnil h
    · rw [getRandomTopic_of_reset random depth clock writes file hnil hw]
      exact ⟨_, rfl⟩
  · rw [getRandomTopic_of_available random (depth + 1) clock writes file hnil]
    exact ⟨_, rfl⟩

theorem mem_allUsed (now : Int) (topic : String) (timestamp : Int) :
    (topic, timestamp) ∈ allUsed now ↔ topic ∈ topics ∧ timestamp = now := by
  simp only [allUsed, List.mem_map, Prod.mk.injEq]
  constructor
  · rintro ⟨a, ha, rfl, rfl⟩
    exact ⟨ha, rfl⟩
  · rintro ⟨ht, rfl⟩
    exact ⟨topic, ht, rfl, rfl⟩

theorem uniqueKeys_allUsed (now : Int) : UniqueKeys (allUsed now) := by
  have h : keys (allUsed now) = topics := by
    simp [keys, allUsed, Function.comp_def]
  unfold UniqueKeys
  rw [h]
  decide

/-- No topic is available when every catalog topic has an entry younger than seven days. -/
theorem getAvailableTopics_of_all_fresh (now : Int) (written : Bool) (file : File)
    (hall : ∀ topic ∈ topics, ∃ timestamp,
      (topic, timestamp) ∈ loadUsedTopics file ∧ now - timestamp < 604800000) :
    (getAvailableTopics now written file).1 = [] := by
  rw [List.eq_nil_iff_forall_not_mem]
  intro t ht
  rw [mem_getAvailableTopics] at ht
  exact ht.2 ((mem_keys_cleanUpUsedTopics _ _ _).2 (hall t ht.1))

theorem allUsed_fresh (now : Int) (hnow : now < 604800000) :
    ∀ topic ∈ topics, ∃ timestamp,
      (topic, timestamp) ∈ loadUsedTopics (some (allUsed 0)) ∧ now - timestamp < 604800000 := by
  intro topic ht
  exact ⟨0, (mem_allUsed 0 topic 0).2 ⟨ht, rfl⟩, by omega⟩

theorem available_twoEntries (written : Bool) :
    (getAvailableTopics 604800000 written (some twoEntries)).1 =
      ["React.js", "Vue.js", "Node.js", "Express.js", "GraphQL", "TypeScript", "Webpack",
        "Docker", "Kubernetes", "Microservices", "Progressive Web Apps",
        "Serverless Computing", "WebAssembly", "RESTful APIs", "Next.js", "Nuxt.js", "Svelte",
        "Tailwind CSS", "Responsive Design"] := by
  rw [getAvailableTopics_fst]
  simp only [loadUsedTopics, cleanUpUsedTopics_twoEntries]
  decide

/-- Claim C10 (selection stays within the available set): when `getAvailableTopics` returns a
non-empty list and the draw is a double in `[0, 1)`, `getRandomTopic` returns, for every
positive stack depth, without a reset; the index `Math.floor(random * n)`, the floor of the
double product, is within `0 ≤ index < n`, the topic returned is the element at that index, a
catalog member and not a key of the cleaned store. -/
theorem getRandomTopic_within_available (random : ℚ) (depth : Nat) (clock : Nat → Int)
    (writes : Nat → Bool) (file : File)
    (hne : (getAvailableTopics (clock 0) (writes 0) file).1 ≠ [])
    (hd : isDouble random) (h0 : 0 ≤ random) (h1 : random < 1) :
    ∃ topic,
      getRandomTopic random (depth + 1) clock writes file =
        (Selection.returned (some topic),
          (if writes 0 = true then some (cleanUpUsedTopics (clock 0) (loadUsedTopics file))
            else file), []) ∧
      0 ≤ randomIndex random (getAvailableTopics (clock 0) (writes 0) file).1.length ∧
      randomIndex random (getAvailableTopics (clock 0) (writes 0) file).1.length <
        (getAvailableTopics (clock 0) (writes 0) file).1.length ∧
      randomIndex random (getAvailableTopics (clock 0) (writes 0) file).1.length =
        ⌊roundDouble
          (random * ((getAvailableTopics (clock 0) (writes 0) file).1.length : ℚ))⌋ ∧
      (getAvailableTopics (clock 0) (writes 0) file).1[
        (randomIndex random
          (getAvailableTopics (clock 0) (writes 0) file).1.length).toNat]? = some topic ∧
      topic ∈ (getAvailableTopics (clock 0) (writes 0) file).1 ∧
      topic ∈ topics ∧
      topic ∉ keys (cleanUpUsedTopics (clock 0) (loadUsedTopics file)) := by
  obtain ⟨x, hx, hget, hmem⟩ :=
    elementAt_randomIndex (getAvailableTopics (clock 0) (writes 0) file).1 random hd h0 h1 hne
  have hpos : 0 < (getAvailableTopics (clock 0) (writes 0) file).1.length :=
    List.length_pos.2 hne
  refine ⟨x, ?_, randomIndex_nonneg _ _ h0, randomIndex_lt _ _ hd h0 h1 hpos, rfl, hget, hmem,
    ((mem_getAvailableTopics _ _ _ _).1 hmem).1, ((mem_getAvailableTopics _ _ _ _).1 hmem).2⟩
  rw [getRandomTopic_of_available random depth clock writes file hne, hx,
    getAvailableTopics_snd]

/-- Witness of C10: the store `twoEntries` read at time 604800000 leaves 19 topics; with the
draw `0.21052631578947367` the index is `4`, the floor of the double product `4.0`, and the
topic returned is `"GraphQL"`. -/
theorem getRandomTopic_within_available_witness :
    ((getAvailableTopics 604800000 true (some twoEntries)).1 ≠ [] ∧
      isDouble nearFourNineteenths ∧ 0 ≤ nearFourNineteenths ∧ nearFourNineteenths < 1) ∧
    (∃ topic,
      getRandomTopic nearFourNineteenths (0 + 1) (fun _ => 604800000) (fun _ => true)
          (some twoEntries) =
        (Selection.returned (some topic),
          (if true = true then
            some (cleanUpUsedTopics 604800000 (loadUsedTopics (some twoEntries)))
            else some twoEntries), []) ∧
      0 ≤ randomIndex nearFourNineteenths
        (getAvailableTopics 604800000 true (some twoEntries)).1.length ∧
      randomIndex nearFourNineteenths
          (getAvailableTopics 604800000 true (some twoEntries)).1.length <
        (getAvailableTopics 604800000 true (some twoEntries)).1.length ∧
      randomIndex nearFourNineteenths
          (getAvailableTopics 604800000 true (some twoEntries)).1.length =
        ⌊roundDouble (nearFourNineteenths *
          ((getAvailableTopics 604800000 true (some twoEntries)).1.length : ℚ))⌋ ∧
      (getAvailableTopics 604800000 true (some twoEntries)).1[
        (randomIndex nearFourNineteenths
          (getAvailableTopics 604800000 true (some twoEntries)).1.length).toNat]? =
        some topic ∧
      topic ∈ (getAvailableTopics 604800000 true (some twoEntries)).1 ∧
      topic ∈ topics ∧
      topic ∉ keys (cleanUpUsedTopics 604800000 (loadUsedTopics (some twoEntries)))) ∧
    getRandomTopic nearFourNineteenths 1 (fun _ => 604800000) (fun _ => true)
        (some twoEntries) =
      (Selection.returned (some "GraphQL"), some [("Angular", 518400000)], []) := by
  have hne : (getAvailableTopics 604800000 true (some twoEntries)).1 ≠ [] := by
    rw [available_twoEntries]
    decide
  have h0 : 0 ≤ nearFourNineteenths := by norm_num [nearFourNineteenths]
  have h1 : nearFourNineteenths < 1 := by norm_num [nearFourNineteenths]
  refine ⟨⟨hne, isDouble_nearFourNineteenths, h0, h1⟩,
    getRandomTopic_within_available nearFourNineteenths 0 (fun _ => 604800000)
      (fun _ => true) (some twoEntries) hne isDouble_nearFourNineteenths h0 h1, ?_⟩
  rw [getRandomTopic_of_available nearFourNineteenths 0 (fun _ => 604800000)
    (fun _ => true) (some twoEntries) hne, getAvailableTopics_snd, available_twoEntries]
  have hlen : ["React.js", "Vue.js", "Node.js", "Express.js", "GraphQL", "TypeScript",
      "Webpack", "Docker", "Kubernetes", "Microservices", "Progressive Web Apps",
      "Serverless Computing", "WebAssembly", "RESTful APIs", "Next.js", "Nuxt.js", "Svelte",
      "Tailwind CSS", "Responsive Design"].length = 19 := rfl
  rw [hlen, randomIndex_nearFourNineteenths.1]
  simp only [loadUsedTopics, cleanUpUsedTopics_twoEntries, if_true]
  rfl

/-- Counterexample to C2 as stated: every catalog topic was used at time `0` and the call
happens a second later.  When every write fails, a call stack of depth 1000 is exhausted by
1000 resets and the store is not emptied; when only the first two writes fail, the call
returns after two resets. -/
theorem getRandomTopic_reset_write_fails :
    (∀ topic ∈ topics, ∃ timestamp,
      (topic, timestamp) ∈ loadUsedTopics (some (allUsed 0)) ∧
        (1000 : Int) - timestamp < 604800000) ∧
    getRandomTopic 0 1000 (fun _ => 1000) (fun _ => false) (some (allUsed 0)) =
      (Selection.stackOverflow, some (allUsed 0), List.replicate 1000 (Event.reset false)) ∧
    getRandomTopic 0 3 (fun _ => 1000) (fun i => decide (2 ≤ i)) (some (allUsed 0)) =
      (Selection.returned (some "React.js"), some [], [Event.reset false, Event.reset true]) := by
  refine ⟨allUsed_fresh 1000 (by norm_num),
    getRandomTopic_never_returns 0 1000 (fun _ => 1000) (some (allUsed 0))
      (fun _ => allUsed_fresh 1000 (by norm_num)), ?_⟩
  have hnil : ∀ written, (getAvailableTopics 1000 written (some (allUsed 0))).1 = [] :=
    fun written => getAvailableTopics_of_all_fresh 1000 written _
      (allUsed_fresh 1000 (by norm_num))
  rw [getRandomTopic_of_exhausted 0 2 (fun _ => 1000) (fun i => decide (2 ≤ i))
    (some (allUsed 0)) (hnil _)]
  have hfile : saveUsedTopics (decide (2 ≤ 1)) []
      (getAvailableTopics 1000 (decide (2 ≤ 0)) (some (allUsed 0))).2 = some (allUsed 0) := rfl
  rw [hfile, getRandomTopic_of_reset 0 0 (fun _ => 1000) (fun i => decide (2 ≤ i + 2))
    (some (allUsed 0)) (hnil _) rfl, randomIndex_zero]
  rfl

/-- Claim C2, amended (exhaustion reset): when every catalog topic is a key of the store with
a timestamp younger than seven days at the time of the call and the write of the reset
succeeds, `getRandomTopic` (draw a double in `[0, 1)`, stack depth at least two) returns after
exactly one reset, leaves the empty mapping in the file, and returns a catalog topic. -/
theorem getRandomTopic_exhaustion_reset (random : ℚ) (depth : Nat) (clock : Nat → Int)
    (writes : Nat → Bool) (file : File)
    (hall : ∀ topic ∈ topics, ∃ timestamp,
      (topic, timestamp) ∈ loadUsedTopics file ∧ clock 0 - timestamp < 604800000)
    (hw : writes 1 = true)
    (hd : isDouble random) (h0 : 0 ≤ random) (h1 : random < 1) :
    ∃ topic,
      getRandomTopic random (depth + 2) clock writes file =
        (Selection.returned (some topic), some [], [Event.reset true]) ∧
      topic ∈ topics := by
  have hnil := getAvailableTopics_of_all_fresh (clock 0) (writes 0) file hall
  obtain ⟨x, hx, _, hmem⟩ := elementAt_randomIndex topics random hd h0 h1 topics_ne_nil
  exact ⟨x, by rw [getRandomTopic_of_reset random depth clock writes file hnil hw, hx], hmem⟩

/-- Witness of the amended C2: every catalog topic was used at time `0`, the call happens a
second later, the write of the cleaned store fails and the write of the reset succeeds. -/
theorem getRandomTopic_exhaustion_reset_witness :
    ((∀ topic ∈ topics, ∃ timestamp,
        (topic, timestamp) ∈ loadUsedTopics (some (allUsed 0)) ∧
          (fun _ : Nat => (1000 : Int)) 0 - timestamp < 604800000) ∧
      (fun i => decide (1 ≤ i)) 1 = true ∧
      isDouble nearFourNineteenths ∧ 0 ≤ nearFourNineteenths ∧ nearFourNineteenths < 1) ∧
    ∃ topic,
      getRandomTopic nearFourNineteenths (0 + 2) (fun _ => 1000) (fun i => decide (1 ≤ i))
          (some (allUsed 0)) =
        (Selection.returned (some topic), some [], [Event.reset true]) ∧
      topic ∈ topics :=
  ⟨⟨allUsed_fresh 1000 (by norm_num), rfl, isDouble_nearFourNineteenths,
      by norm_num [nearFourNineteenths], by norm_num [nearFourNineteenths]⟩,
    getRandomTopic_exhaustion_reset nearFourNineteenths 0 (fun _ => 1000)
      (fun i => decide (1 ≤ i)) (some (allUsed 0)) (allUsed_fresh 1000 (by norm_num)) rfl
      isDouble_nearFourNineteenths (by norm_num [nearFourNineteenths])
      (by norm_num [nearFourNineteenths])⟩
/-! ## Retry -/

theorem retryOperation_ok {σ ε α : Type} (operation : σ → Except ε α × σ) (retries delay : Nat)
    (s s' : σ) (value : α) (h : operation s = (Except.ok value, s')) :
    retryOperation operation retries delay s = (Except.ok value, s', [Event.invoke]) := by
  rw [retryOperation]
  simp [h]

theorem retryOperation_error_zero {σ ε α : Type} (operation : σ → Except ε α × σ) (delay : Nat)
    (s s' : σ) (error : ε) (h : operation s = (Except.error error, s')) :
    retryOperation operation 0 delay s = (Except.error error, s', [Event.invoke]) := by
  rw [retryOperation]
  simp [h]

theorem retryOperation_error_succ {σ ε α : Type} (operation : σ → Except ε α × σ)
    (retries delay : Nat) (s s' : σ) (error : ε) (h : operation s = (Except.error error, s')) :
    retryOperation operation (retries + 1) delay s =
      ((retryOperation operation retries (delay * 2) s').1,
        (retryOperation operation retries (delay * 2) s').2.1,
        Event.invoke :: Event.sleep delay ::
          (retryOperation operation retries (delay * 2) s').2.2) := by
  rw [retryOperation]
  simp [h]

theorem invocations_attempts (failures delay : Nat) :
    invocations (attempts failures delay) = failures + 1 := by
  induction failures generalizing delay with
  | zero => simp [attempts, invocations]
  | succ k ih =>
    have := ih (delay * 2)
    simp only [invocations] at this
    simp [attempts, invocations, this]

theorem waits_attempts (failures delay : Nat) :
    waits (attempts failures delay) = (List.range failures).map (fun i => delay * 2 ^ i) := by
  induction failures generalizing delay with
  | zero => simp [attempts, waits]
  | succ k ih =>
    have h := ih (delay * 2)
    simp only [waits] at h
    simp only [attempts, waits, List.filterMap_cons, h, List.range_succ_eq_map]
    simp only [List.map_cons, List.map_map, pow_zero, mul_one, List.cons.injEq, true_and]
    apply List.map_congr_left
    intro i _
    simp only [Function.comp, pow_succ]
    ring

theorem marks_attempts (failures delay : Nat) : marks (attempts failures delay) = [] := by
  induction failures generalizing delay with
  | zero => simp [attempts, marks]
  | succ k ih =>
    have h := ih (delay * 2)
    simp only [marks] at h
    simp [attempts, marks, h]

/-- An operation failing on its first `k` invocations and then succeeding is retried `k` times,
provided that `k` retries are allowed. -/
theorem retryOperation_succeeds {σ ε α : Type} (operation : σ → Except ε α × σ)
    (k retries delay : Nat) (s : σ) (value : α) (hk : k ≤ retries)
    (hfail : ∀ i, i < k → ∃ error, outcome operation i s = Except.error error)
    (hok : outcome operation k s = Except.ok value) :
    retryOperation operation retries delay s =
      (Except.ok value, afterInvocations operation (k + 1) s, attempts k delay) := by
  induction k generalizing retries delay s with
  | zero =>
    have h : operation s = (Except.ok value, (operation s).2) := by
      simp only [outcome, afterInvocations] at hok
      rw [← hok]
    rw [retryOperation_ok operation retries delay s _ value h]
    rfl
  | succ k ih =>
    obtain ⟨error, herr⟩ := hfail 0 (Nat.succ_pos k)
    have h : operation s = (Except.error error, (operation s).2) := by
      simp only [outcome, afterInvocations] at herr
      rw [← herr]
    obtain ⟨r, rfl⟩ : ∃ r, retries = r + 1 := ⟨retries - 1, by omega⟩
    rw [retryOperation_error_succ operation r delay s _ error h]
    rw [ih r (delay * 2) (operation s).2 (by omega)
      (fun i hi => hfail (i + 1) (by omega)) hok]
    rfl

/-- An operation failing on its first `retries + 1` invocations exhausts the retries, and the
error of the last invocation is the one thrown. -/
theorem retryOperation_fails {σ ε α : Type} (operation : σ → Except ε α × σ)
    (retries delay : Nat) (s : σ)
    (hfail : ∀ i, i ≤ retries → ∃ error, outcome operation i s = Except.error error) :
    ∃ error, outcome operation retries s = Except.error error ∧
      retryOperation operation retries delay s =
        (Except.error error, afterInvocations operation (retries + 1) s,
          attempts retries delay) := by
  induction retries generalizing delay s with
  | zero =>
    obtain ⟨error, herr⟩ := hfail 0 (Nat.le_refl 0)
    have h : operation s = (Except.error error, (operation s).2) := by
      simp only [outcome, afterInvocations] at herr
      rw [← herr]
    exact ⟨error, herr, by rw [retryOperation_error_zero operation delay s _ error h]; rfl⟩
  | succ r ih =>
    obtain ⟨error, herr⟩ := hfail 0 (Nat.zero_le _)
    have h : operation s = (Except.error error, (operation s).2) := by
      simp only [outcome, afterInvocations] at herr
      rw [← herr]
    obtain ⟨last, hlast, hrun⟩ :=
      ih (delay * 2) (operation s).2 (fun i hi => hfail (i + 1) (by omega))
    refine ⟨last, hlast, ?_⟩
    rw [retryOperation_error_succ operation r delay s _ error h, hrun]
    rfl

/-- Claim C3 (retry backoff sequence): if the operation throws on its first `k` invocations,
`k ≤ maxRetries`, and returns `value` on the next one, then `retryOperation` returns `value`,
the operation has been invoked exactly `k + 1` times, and the trace is attempt, wait
`delay`, attempt, wait `2 * delay`, ..., attempt, so the waits are `delay * 2 ^ i` for
`i = 0, ..., k - 1` in this order, one between each two consecutive attempts. -/
theorem retryOperation_backoff {σ ε α : Type} (operation : σ → Except ε α × σ)
    (k maxRetries initialDelay : Nat) (s : σ) (value : α) (hk : k ≤ maxRetries)
    (hfail : ∀ i, i < k → ∃ error, outcome operation i s = Except.error error)
    (hok : outcome operation k s = Except.ok value) :
    (retryOperation operation maxRetries initialDelay s).1 = Except.ok value ∧
    (retryOperation operation maxRetries initialDelay s).2.1 =
      afterInvocations operation (k + 1) s ∧
    invocations (retryOperation operation maxRetries initialDelay s).2.2 = k + 1 ∧
    waits (retryOperation operation maxRetries initialDelay s).2.2 =
      (List.range k).map (fun i => initialDelay * 2 ^ i) ∧
    (retryOperation operation maxRetries initialDelay s).2.2 = attempts k initialDelay := by
  rw [retryOperation_succeeds operation k maxRetries initialDelay s value hk hfail hok]
  exact ⟨rfl, rfl, invocations_attempts k initialDelay, waits_attempts k initialDelay, rfl⟩

/-- Witness of C3: two failures, `maxRetries = 3`, `initialDelay = 1000`: three attempts, waits
of 1000 and 2000. -/
theorem retryOperation_backoff_witness :
    (2 ≤ 3 ∧ (∀ i, i < 2 → ∃ error, outcome failsTwice i 0 = Except.error error) ∧
      outcome failsTwice 2 0 = Except.ok "text") ∧
    ((retryOperation failsTwice 3 1000 0).1 = Except.ok "text" ∧
      (retryOperation failsTwice 3 1000 0).2.1 = afterInvocations failsTwice (2 + 1) 0 ∧
      invocations (retryOperation failsTwice 3 1000 0).2.2 = 2 + 1 ∧
      waits (retryOperation failsTwice 3 1000 0).2.2 =
        (List.range 2).map (fun i => 1000 * 2 ^ i) ∧
      (retryOperation failsTwice 3 1000 0).2.2 = attempts 2 1000) ∧
    retryOperation failsTwice 3 1000 0 =
      (Except.ok "text", 3,
        [Event.invoke, Event.sleep 1000, Event.invoke, Event.sleep 2000, Event.invoke]) :=
  ⟨⟨by decide, fun i hi => ⟨"unavailable", by interval_cases i <;> rfl⟩, rfl⟩,
    retryOperation_backoff failsTwice 2 3 1000 0 "text" (by decide)
      (fun i hi => ⟨"unavailable", by interval_cases i <;> rfl⟩) rfl,
    rfl⟩

/-- Claim C4 (retry exhaustion): if the operation throws on each of its first
`maxRetries + 1` invocations (as an operation that always throws does), then `retryOperation`
invokes it exactly `maxRetries + 1` times and throws the very error that the last invocation
threw. -/
theorem retryOperation_exhaustion {σ ε α : Type} (operation : σ → Except ε α × σ)
    (maxRetries initialDelay : Nat) (s : σ)
    (hfail : ∀ i, i ≤ maxRetries → ∃ error, outcome operation i s = Except.error error) :
    ∃ error, outcome operation maxRetries s = Except.error error ∧
      (retryOperation operation maxRetries initialDelay s).1 = Except.error error ∧
      (retryOperation operation maxRetries initialDelay s).2.1 =
        afterInvocations operation (maxRetries + 1) s ∧
      invocations (retryOperation operation maxRetries initialDelay s).2.2 = maxRetries + 1 ∧
      waits (retryOperation operation maxRetries initialDelay s).2.2 =
        (List.range maxRetries).map (fun i => initialDelay * 2 ^ i) ∧
      (retryOperation operation maxRetries initialDelay s).2.2 =
        attempts maxRetries initialDelay := by
  obtain ⟨error, hlast, hrun⟩ := retryOperation_fails operation maxRetries initialDelay s hfail
  refine ⟨error, hlast, ?_⟩
  rw [hrun]
  exact ⟨rfl, rfl, invocations_attempts _ _, waits_attempts _ _, rfl⟩

/-- Witness of C4: `maxRetries = 3` and an operation whose error is the number of the
invocation: four attempts, and the error thrown is that of the fourth one. -/
theorem retryOperation_exhaustion_witness :
    (∀ i, i ≤ 3 → ∃ error, outcome alwaysFails i 0 = Except.error error) ∧
    (∃ error, outcome alwaysFails 3 0 = Except.error error ∧
      (retryOperation alwaysFails 3 1000 0).1 = Except.error error ∧
      (retryOperation alwaysFails 3 1000 0).2.1 = afterInvocations alwaysFails (3 + 1) 0 ∧
      invocations (retryOperation alwaysFails 3 1000 0).2.2 = 3 + 1 ∧
      waits (retryOperation alwaysFails 3 1000 0).2.2 =
        (List.range 3).map (fun i => 1000 * 2 ^ i) ∧
      (retryOperation alwaysFails 3 1000 0).2.2 = attempts 3 1000) ∧
    retryOperation alwaysFails 3 1000 0 =
      (Except.error 3, 4,
        [Event.invoke, Event.sleep 1000, Event.invoke, Event.sleep 2000, Event.invoke,
          Event.sleep 4000, Event.invoke]) :=
  ⟨fun i hi => ⟨i, by interval_cases i <;> rfl⟩,
    retryOperation_exhaustion alwaysFails 3 1000 0
      (fun i hi => ⟨i, by interval_cases i <;> rfl⟩),
    rfl⟩


/-! ## The post pipeline -/

/-- The run of `generatePost` when topic selection exhausts the call stack. -/
theorem generatePost_of_overflow {σ ε : Type} (generate : String → σ → Except ε String × σ)
    (random : ℚ) (depth : Nat) (clock : Nat → Int) (writes : Nat → Bool) (markTime : Int)
    (markWritten : Bool) (file : File) (s : σ) (after : File) (selection : List Event)
    (hsel : getRandomTopic random depth clock writes file =
      (Selection.stackOverflow, after, selection)) :
    generatePost generate random depth clock writes markTime markWritten file s =
      (none, after, s, selection) := by
  unfold generatePost
  simp only [hsel]

/-- The run of `generatePost` when the generation throws on all four attempts. -/
theorem generatePost_of_failure {σ ε : Type} (generate : String → σ → Except ε String × σ)
    (random : ℚ) (depth : Nat) (clock : Nat → Int) (writes : Nat → Bool) (markTime : Int)
    (markWritten : Bool) (file : File) (s : σ) (topic : Option String) (after : File)
    (selection : List Event)
    (hsel : getRandomTopic random depth clock writes file =
      (Selection.returned topic, after, selection))
    (hfail : ∀ i, i ≤ 3 → ∃ error, outcome (generate (prompt topic)) i s = Except.error error) :
    generatePost generate random depth clock writes markTime markWritten file s =
      (none, after, afterInvocations (generate (prompt topic)) 4 s,
        selection ++ attempts 3 1000) := by
  obtain ⟨error, _, hrun⟩ := retryOperation_fails (generate (prompt topic)) 3 1000 s hfail
  unfold generatePost
  simp only [hsel, hrun]

/-- The run of `generatePost` when the generation returns a text on attempt `k + 1`. -/
theorem generatePost_of_success {σ ε : Type} (generate : String → σ → Except ε String × σ)
    (random : ℚ) (depth : Nat) (clock : Nat → Int) (writes : Nat → Bool) (markTime : Int)
    (markWritten : Bool) (file : File) (s : σ) (topic : Option String) (after : File)
    (selection : List Event) (k : Nat) (text : String)
    (hsel : getRandomTopic random depth clock writes file =
      (Selection.returned topic, after, selection))
    (hk : k ≤ 3)
    (hfail : ∀ i, i < k → ∃ error, outcome (generate (prompt topic)) i s = Except.error error)
    (hok : outcome (generate (prompt topic)) k s = Except.ok text) :
    generatePost generate random depth clock writes markTime markWritten file s =
      (some text, addUsedTopic markTime markWritten (toStr topic) after,
        afterInvocations (generate (prompt topic)) (k + 1) s,
        selection ++ attempts k 1000 ++ [Event.mark (toStr topic)]) := by
  have hrun := retryOperation_succeeds (generate (prompt topic)) k 3 1000 s text hk hfail hok
  unfold generatePost
  simp only [hsel, hrun]

theorem marks_append (xs ys : List Event) : marks (xs ++ ys) = marks xs ++ marks ys := by
  simp [marks, List.filterMap_append]

theorem invocations_append (xs ys : List Event) :
    invocations (xs ++ ys) = invocations xs + invocations ys := by
  simp [invocations]

theorem cleanUpUsedTopics_oneEntry : cleanUpUsedTopics 604800000 oneEntry = [] := by
  rw [cleanUpUsedTopics_eq_filter _ _ (by decide)]
  decide

theorem getRandomTopic_oneEntry :
    getRandomTopic 0 1 (fun _ => 604800000) (fun _ => false) (some oneEntry) =
      (Selection.returned (some "React.js"), some oneEntry, []) := by
  have hav : (getAvailableTopics 604800000 false (some oneEntry)).1 = topics := by
    rw [getAvailableTopics_fst]
    simp [loadUsedTopics, cleanUpUsedTopics_oneEntry, keys]
  rw [getRandomTopic_of_available 0 0 (fun _ => 604800000) (fun _ => false) (some oneEntry)
    (by rw [hav]; exact topics_ne_nil), hav, randomIndex_zero]
  rfl

theorem getRandomTopic_twoEntries :
    getRandomTopic 0 1 (fun _ => 604800000) (fun _ => true) (some twoEntries) =
      (Selection.returned (some "React.js"), some [("Angular", 518400000)], []) := by
  rw [getRandomTopic_of_available 0 0 (fun _ => 604800000) (fun _ => true) (some twoEntries)
    (by rw [available_twoEntries]; decide), getAvailableTopics_snd, available_twoEntries,
    randomIndex_zero]
  simp only [loadUsedTopics, cleanUpUsedTopics_twoEntries, if_true]
  rfl

/-- Counterexample to C5 as stated: the store holds `"React.js"` with a timestamp exactly
seven days old, the write of the cleaned store fails, `"React.js"` is selected and the
generation throws four times; `generatePost` returns `null` and the selected topic is still a
key of the store. -/
theorem generatePost_failure_stale_key :
    getRandomTopic 0 1 (fun _ => 604800000) (fun _ => false) (some oneEntry) =
      (Selection.returned (some "React.js"), some oneEntry, []) ∧
    generatePost (fun _ => alwaysFails) 0 1 (fun _ => 604800000) (fun _ => false) 604800777
        true (some oneEntry) 0 =
      (none, some oneEntry, 4, attempts 3 1000) ∧
    "React.js" ∈ keys (loadUsedTopics (some oneEntry)) := by
  refine ⟨getRandomTopic_oneEntry, ?_, by decide⟩
  rw [generatePost_of_failure (fun _ => alwaysFails) 0 1 (fun _ => 604800000)
    (fun _ => false) 604800777 true (some oneEntry) 0 (some "React.js") (some oneEntry) []
    getRandomTopic_oneEntry (fun i hi => ⟨i, by interval_cases i <;> rfl⟩)]
  rfl

/-- Claim C5, amended (no marking on failure): if the generation for the selected topic
throws on all four attempts (`maxRetries = 3`), then `generatePost` returns `null`,
`addUsedTopic` is not called and the file is exactly what topic selection left.  The selected
topic is a catalog topic; it is not a key of that file when the last write of the cleaned
store succeeded, and in any case the file holds no entry of it younger than seven days. -/
theorem generatePost_failure {σ ε : Type} (generate : String → σ → Except ε String × σ)
    (random : ℚ) (depth : Nat) (clock : Nat → Int) (writes : Nat → Bool) (markTime : Int)
    (markWritten : Bool) (file : File) (s : σ)
    (hd : isDouble random) (h0 : 0 ≤ random) (h1 : random < 1)
    (hfail : ∀ topic,
      (getRandomTopic random depth clock writes file).1 = Selection.returned topic →
      ∀ i, i ≤ 3 → ∃ error, outcome (generate (prompt topic)) i s = Except.error error) :
    (generatePost generate random depth clock writes markTime markWritten file s).1 = none ∧
    (generatePost generate random depth clock writes markTime markWritten file s).2.1 =
      (getRandomTopic random depth clock writes file).2.1 ∧
    marks (generatePost generate random depth clock writes markTime markWritten file s).2.2.2 =
      [] ∧
    ∀ topic, (getRandomTopic random depth clock writes file).1 = Selection.returned topic →
      ∃ name, topic = some name ∧ name ∈ topics ∧
        (generatePost generate random depth clock writes markTime markWritten file s).2.2.2 =
          (getRandomTopic random depth clock writes file).2.2 ++ attempts 3 1000 ∧
        invocations
          (generatePost generate random depth clock writes markTime markWritten file s).2.2.2 =
            4 ∧
        (writes (2 * (getRandomTopic random depth clock writes file).2.2.length) = true →
          name ∉ keys (loadUsedTopics
            (generatePost generate random depth clock writes markTime markWritten file
              s).2.1)) ∧
        (∀ timestamp,
          (name, timestamp) ∈ loadUsedTopics
            (generatePost generate random depth clock writes markTime markWritten file
              s).2.1 →
          604800000 ≤
            clock (getRandomTopic random depth clock writes file).2.2.length - timestamp) := by
  have hS := fun topic => getRandomTopic_selected random depth clock writes file topic hd h0 h1
  have hE := getRandomTopic_events random depth clock writes file
  generalize hsel : getRandomTopic random depth clock writes file = r at hfail hS hE ⊢
  obtain ⟨sel, after, selection⟩ := r
  cases sel with
  | stackOverflow =>
    rw [generatePost_of_overflow generate random depth clock writes markTime markWritten file
      s after selection hsel]
    refine ⟨rfl, rfl, marks_of_resets selection writes hE, ?_⟩
    intro topic h
    simp at h
  | returned topic =>
    rw [generatePost_of_failure generate random depth clock writes markTime markWritten file
      s topic after selection hsel (hfail topic rfl)]
    refine ⟨rfl, rfl, ?_, ?_⟩
    · rw [marks_append, marks_of_resets selection writes hE, marks_attempts]
      rfl
    · intro topic' h
      obtain ⟨name, hname, hcat, hold, hkey⟩ := hS topic' h
      refine ⟨name, hname, hcat, rfl, ?_, hkey, hold⟩
      simp only [invocations_append, invocations_of_resets selection writes hE,
        invocations_attempts]

/-- Witness of the amended C5: the store `twoEntries` at time 604800000, draw `0`, writes
that succeed, and a generation service that always throws. -/
theorem generatePost_failure_witness :
    (isDouble 0 ∧ (0 : ℚ) ≤ 0 ∧ (0 : ℚ) < 1 ∧
      ∀ topic,
        (getRandomTopic 0 1 (fun _ => 604800000) (fun _ => true) (some twoEntries)).1 =
          Selection.returned topic →
        ∀ i, i ≤ 3 → ∃ error,
          outcome ((fun _ => alwaysFails) (prompt topic)) i 0 = Except.error error) ∧
    (generatePost (fun _ => alwaysFails) 0 1 (fun _ => 604800000) (fun _ => true) 604800777
        true (some twoEntries) 0).1 = none ∧
    (generatePost (fun _ => alwaysFails) 0 1 (fun _ => 604800000) (fun _ => true) 604800777
        true (some twoEntries) 0).2.1 =
      (getRandomTopic 0 1 (fun _ => 604800000) (fun _ => true) (some twoEntries)).2.1 ∧
    marks (generatePost (fun _ => alwaysFails) 0 1 (fun _ => 604800000) (fun _ => true)
        604800777 true (some twoEntries) 0).2.2.2 = [] :=
  ⟨⟨isDouble_zero, le_refl 0, by norm_num,
      fun _ _ i hi => ⟨i, by interval_cases i <;> rfl⟩⟩,
    (generatePost_failure (fun _ => alwaysFails) 0 1 (fun _ => 604800000) (fun _ => true)
      604800777 true (some twoEntries) 0 isDouble_zero (le_refl 0) (by norm_num)
      (fun _ _ i hi => ⟨i, by interval_cases i <;> rfl⟩)).1,
    (generatePost_failure (fun _ => alwaysFails) 0 1 (fun _ => 604800000) (fun _ => true)
      604800777 true (some twoEntries) 0 isDouble_zero (le_refl 0) (by norm_num)
      (fun _ _ i hi => ⟨i, by interval_cases i <;> rfl⟩)).2.1,
    (generatePost_failure (fun _ => alwaysFails) 0 1 (fun _ => 604800000) (fun _ => true)
      604800777 true (some twoEntries) 0 isDouble_zero (le_refl 0) (by norm_num)
      (fun _ _ i hi => ⟨i, by interval_cases i <;> rfl⟩)).2.2.1⟩

/-- Counterexample to C9 as stated: the generation returns a text on its third attempt and
the write inside `addUsedTopic` fails; `generatePost` returns the text, `addUsedTopic` is
called, and the selected topic `"React.js"` is not in the store afterwards. -/
theorem generatePost_mark_write_fails :
    generatePost (fun _ => failsTwice) 0 1 (fun _ => 604800000) (fun _ => true) 604800777
        false (some twoEntries) 0 =
      (some "text", some [("Angular", 518400000)], 3,
        [Event.invoke, Event.sleep 1000, Event.invoke, Event.sleep 2000, Event.invoke,
          Event.mark "React.js"]) ∧
    "React.js" ∉ keys (loadUsedTopics (some [("Angular", 518400000)])) := by
  refine ⟨?_, by decide⟩
  rw [generatePost_of_success (fun _ => failsTwice) 0 1 (fun _ => 604800000) (fun _ => true)
    604800777 false (some twoEntries) 0 (some "React.js") (some [("Angular", 518400000)]) []
    2 "text" getRandomTopic_twoEntries (by decide)
    (fun i hi => ⟨"unavailable", by interval_cases i <;> rfl⟩) rfl]
  rfl

/-- Claim C9, amended (successful post): if topic selection returns and the generation for
the selected topic returns `text` on one of its at most four attempts, then `generatePost`
returns `text` and `addUsedTopic` is called once, as the last step, after the successful
attempt.  When its write succeeds, the file afterwards is the store that `addUsedTopic` loaded
(the one topic selection left) with the selected topic set to the marking time, every entry
under another key being unchanged; when its write fails, the file is unchanged. -/
theorem generatePost_success {σ ε : Type} (generate : String → σ → Except ε String × σ)
    (random : ℚ) (depth : Nat) (clock : Nat → Int) (writes : Nat → Bool) (markTime : Int)
    (markWritten : Bool) (file : File) (s : σ) (topic : Option String) (after : File)
    (selection : List Event) (k : Nat) (text : String)
    (hsel : getRandomTopic random depth clock writes file =
      (Selection.returned topic, after, selection))
    (hd : isDouble random) (h0 : 0 ≤ random) (h1 : random < 1)
    (hu : UniqueKeys (loadUsedTopics file)) (hk : k ≤ 3)
    (hfail : ∀ i, i < k → ∃ error, outcome (generate (prompt topic)) i s = Except.error error)
    (hok : outcome (generate (prompt topic)) k s = Except.ok text) :
    ∃ name, topic = some name ∧ name ∈ topics ∧
      generatePost generate random depth clock writes markTime markWritten file s =
        (some text,
          (if markWritten = true then some (assign (loadUsedTopics after) name markTime)
            else after),
          afterInvocations (generate (prompt topic)) (k + 1) s,
          selection ++ attempts k 1000 ++ [Event.mark name]) ∧
      marks (selection ++ attempts k 1000 ++ [Event.mark name]) = [name] ∧
      (∀ key timestamp, (key, timestamp) ∈ assign (loadUsedTopics after) name markTime ↔
        (key = name ∧ timestamp = markTime) ∨
          (key ≠ name ∧ (key, timestamp) ∈ loadUsedTopics after)) := by
  have hS := getRandomTopic_selected random depth clock writes file topic hd h0 h1
    (by rw [hsel])
  have hE := getRandomTopic_events random depth clock writes file
  have hU := getRandomTopic_invariant UniqueKeys random depth clock writes file
    (fun i m _ => uniqueKeys_cleanUpUsedTopics (clock i) m)
    (fun _ => by simp [UniqueKeys, keys]) hu
  rw [hsel] at hE hU
  simp only at hE hU
  obtain ⟨name, hname, hcat, _, _⟩ := hS
  refine ⟨name, hname, hcat, ?_, ?_, ?_⟩
  · rw [generatePost_of_success generate random depth clock writes markTime markWritten file
      s topic after selection k text hsel hk hfail hok, hname]
    cases markWritten <;> rfl
  · rw [marks_append, marks_append, marks_of_resets selection writes hE, marks_attempts]
    rfl
  · intro key timestamp
    by_cases hkey : key = name
    · rw [hkey, mem_assign_same _ _ _ _ hU]
      simp
    · rw [mem_assign_of_ne _ _ _ _ _ hkey]
      simp [hkey]

/-- Witness of the amended C9: the store `twoEntries` at time 604800000, draw `0`, writes that
succeed, and a generation service that throws twice and then returns a text. -/
theorem generatePost_success_witness :
    (getRandomTopic 0 1 (fun _ => 604800000) (fun _ => true) (some twoEntries) =
        (Selection.returned (some "React.js"), some [("Angular", 518400000)], []) ∧
      isDouble 0 ∧ (0 : ℚ) ≤ 0 ∧ (0 : ℚ) < 1 ∧
      UniqueKeys (loadUsedTopics (some twoEntries)) ∧ 2 ≤ 3 ∧
      (∀ i, i < 2 → ∃ error,
        outcome ((fun _ => failsTwice) (prompt (some "React.js"))) i 0 = Except.error error) ∧
      outcome ((fun _ => failsTwice) (prompt (some "React.js"))) 2 0 = Except.ok "text") ∧
    ∃ name, some "React.js" = some name ∧ name ∈ topics ∧
      generatePost (fun _ => failsTwice) 0 1 (fun _ => 604800000) (fun _ => true) 604800777
          true (some twoEntries) 0 =
        (some "text",
          (if true = true then
            some (assign (loadUsedTopics (some [("Angular", 518400000)])) name 604800777)
            else some [("Angular", 518400000)]),
          afterInvocations ((fun _ => failsTwice) (prompt (some "React.js"))) (2 + 1) 0,
          [] ++ attempts 2 1000 ++ [Event.mark name]) ∧
      marks ([] ++ attempts 2 1000 ++ [Event.mark name]) = [name] ∧
      (∀ key timestamp,
        (key, timestamp) ∈
            assign (loadUsedTopics (some [("Angular", 518400000)])) name 604800777 ↔
          (key = name ∧ timestamp = 604800777) ∨
            (key ≠ name ∧
              (key, timestamp) ∈ loadUsedTopics (some [("Angular", 518400000)]))) :=
  ⟨⟨getRandomTopic_twoEntries, isDouble_zero, le_refl 0, by norm_num, by decide, by decide,
      fun i hi => ⟨"unavailable", by interval_cases i <;> rfl⟩, rfl⟩,
    generatePost_success (fun _ => failsTwice) 0 1 (fun _ => 604800000) (fun _ => true)
      604800777 true (some twoEntries) 0 (some "React.js") (some [("Angular", 518400000)]) []
      2 "text" getRandomTopic_twoEntries isDouble_zero (le_refl 0) (by norm_num) (by decide)
      (by decide) (fun i hi => ⟨"unavailable", by interval_cases i <;> rfl⟩) rfl⟩

/-! ## The cooldown window -/

theorem loadUsedTopics_addUsedTopic (now : Int) (written : Bool) (topic : String)
    (file : File) :
    loadUsedTopics (addUsedTopic now written topic file) =
      if written then assign (loadUsedTopics file) topic now else loadUsedTopics file := by
  cases written <;> rfl

theorem loadUsedTopics_getAvailableTopics (now : Int) (written : Bool) (file : File) :
    loadUsedTopics (getAvailableTopics now written file).2 =
      if written then cleanUpUsedTopics now (loadUsedTopics file) else loadUsedTopics file := by
  cases written <;> rfl

/-- A property of the store that every call of a sequence preserves holds after the sequence
if it held before. -/
theorem runAll_invariant (P : UsedTopics → Prop) (ops : List StoreOp) (file : File)
    (hstep : ∀ op ∈ ops, ∀ f, Event.reset true ∉ (op.run f).2 → P (loadUsedTopics f) →
      P (loadUsedTopics (op.run f).1))
    (hreset : Event.reset true ∉ (runAll ops file).2)
    (h : P (loadUsedTopics file)) : P (loadUsedTopics (runAll ops file).1) := by
  induction ops generalizing file with
  | nil => exact h
  | cons op ops ih =>
    simp only [runAll, List.mem_append, not_or] at hreset ⊢
    exact ih _ (fun o ho => hstep o (List.mem_cons_of_mem _ ho)) hreset.2
      (hstep op (List.mem_cons_self _ _) file hreset.1 h)

/-- The store keeps an entry of the topic `t` written at time `T` or later through a call
whose clock readings are at most `T'`, less than seven days after `T`, unless the call
resets the store. -/
theorem run_keeps_entry (t : String) (T T' : Int) (op : StoreOp) (file : File)
    (hfresh : T' - T < 604800000) (htime : op.between T T')
    (hreset : Event.reset true ∉ (op.run file).2)
    (h : UniqueKeys (loadUsedTopics file) ∧
      ∃ v, (t, v) ∈ loadUsedTopics file ∧ T ≤ v) :
    UniqueKeys (loadUsedTopics (op.run file).1) ∧
      ∃ v, (t, v) ∈ loadUsedTopics (op.run file).1 ∧ T ≤ v := by
  have hclean : ∀ now, now ≤ T' → ∀ m : UsedTopics,
      (UniqueKeys m ∧ ∃ v, (t, v) ∈ m ∧ T ≤ v) →
      UniqueKeys (cleanUpUsedTopics now m) ∧
        ∃ v, (t, v) ∈ cleanUpUsedTopics now m ∧ T ≤ v := by
    rintro now hnow m ⟨hu, v, hv, hTv⟩
    exact ⟨uniqueKeys_cleanUpUsedTopics now m, v,
      (mem_cleanUpUsedTopics now m hu t v).2 ⟨hv, by omega⟩, hTv⟩
  cases op with
  | query now written =>
    simp only [StoreOp.run, loadUsedTopics_getAvailableTopics]
    cases written
    · exact h
    · exact hclean now htime.2 _ h
  | mark topic now written =>
    simp only [StoreOp.run, loadUsedTopics_addUsedTopic]
    cases written
    · exact h
    · obtain ⟨hu, v, hv, hTv⟩ := h
      refine ⟨uniqueKeys_assign _ _ _ hu, ?_⟩
      by_cases hne : t = topic
      · exact ⟨now, hne ▸ mem_assign_self _ _ _, htime.1⟩
      · exact ⟨v, (mem_assign_of_ne _ _ _ _ _ hne).2 hv, hTv⟩
  | pick random depth clock writes =>
    simp only [StoreOp.run] at hreset ⊢
    exact getRandomTopic_invariant
      (fun m => UniqueKeys m ∧ ∃ v, (t, v) ∈ m ∧ T ≤ v) random depth clock writes file
      (fun i m hm => hclean (clock i) (htime i).2 m hm)
      (fun hmem => absurd hmem hreset) h

/-- No call other than marking the topic `t` gives it a new timestamp. -/
theorem run_only_entry (t : String) (T : Int) (op : StoreOp) (file : File)
    (hmark : ∀ now written, op ≠ StoreOp.mark t now written)
    (h : UniqueKeys (loadUsedTopics file) ∧ ∀ v, (t, v) ∈ loadUsedTopics file → v = T) :
    UniqueKeys (loadUsedTopics (op.run file).1) ∧
      ∀ v, (t, v) ∈ loadUsedTopics (op.run file).1 → v = T := by
  have hclean : ∀ now, ∀ m : UsedTopics,
      (UniqueKeys m ∧ ∀ v, (t, v) ∈ m → v = T) →
      UniqueKeys (cleanUpUsedTopics now m) ∧ ∀ v, (t, v) ∈ cleanUpUsedTopics now m → v = T := by
    rintro now m ⟨hu, honly⟩
    exact ⟨uniqueKeys_cleanUpUsedTopics now m,
      fun v hv => honly v ((mem_cleanUpUsedTopics now m hu t v).1 hv).1⟩
  cases op with
  | query now written =>
    simp only [StoreOp.run, loadUsedTopics_getAvailableTopics]
    cases written
    · exact h
    · exact hclean now _ h
  | mark topic now written =>
    simp only [StoreOp.run, loadUsedTopics_addUsedTopic]
    cases written
    · exact h
    · have hne : t ≠ topic := by
        rintro rfl
        exact hmark now true rfl
      exact ⟨uniqueKeys_assign _ _ _ h.1,
        fun v hv => h.2 v ((mem_assign_of_ne _ _ _ _ _ hne).1 hv)⟩
  | pick random depth clock writes =>
    simp only [StoreOp.run]
    exact getRandomTopic_invariant
      (fun m => UniqueKeys m ∧ ∀ v, (t, v) ∈ m → v = T) random depth clock writes file
      (fun i m hm => hclean (clock i) m hm)
      (fun _ => ⟨by simp [UniqueKeys, keys], by simp⟩) h

theorem runAll_only_entry (t : String) (T : Int) (ops : List StoreOp) (file : File)
    (hmark : ∀ now written, StoreOp.mark t now written ∉ ops)
    (h : UniqueKeys (loadUsedTopics file) ∧ ∀ v, (t, v) ∈ loadUsedTopics file → v = T) :
    UniqueKeys (loadUsedTopics (runAll ops file).1) ∧
      ∀ v, (t, v) ∈ loadUsedTopics (runAll ops file).1 → v = T := by
  induction ops generalizing file with
  | nil => exact h
  | cons op ops ih =>
    simp only [runAll]
    apply ih
    · intro now written hmem
      exact hmark now written (List.mem_cons_of_mem _ hmem)
    · apply run_only_entry t T op file _ h
      intro now written heq
      exact hmark now written (heq ▸ List.mem_cons_self _ _)

/-- Counterexample to C1 as stated: every catalog topic was used at time `0`, `"React.js"` is
marked at time `0`, `getRandomTopic()` is called at time `1` and resets the store, and the
query at time `1`, less than seven days after the marking, returns `"React.js"`. -/
theorem cooldown_broken_by_reset :
    "React.js" ∈ topics ∧
    UniqueKeys (loadUsedTopics (some (allUsed 0))) ∧
    (1 : Int) - 0 < 604800000 ∧
    (∀ op ∈ [StoreOp.pick 0 2 (fun _ => 1) (fun _ => true)], op.between 0 1) ∧
    (runAll [StoreOp.pick 0 2 (fun _ => 1) (fun _ => true)]
        (addUsedTopic 0 true "React.js" (some (allUsed 0)))) =
      (some [], [Event.reset true]) ∧
    "React.js" ∈
      (getAvailableTopics 1 true
        (runAll [StoreOp.pick 0 2 (fun _ => 1) (fun _ => true)]
          (addUsedTopic 0 true "React.js" (some (allUsed 0)))).1).1 := by
  have hnil : (getAvailableTopics ((fun _ : Nat => (1 : Int)) 0) ((fun _ : Nat => true) 0)
      (addUsedTopic 0 true "React.js" (some (allUsed 0)))).1 = [] := by
    apply getAvailableTopics_of_all_fresh
    intro t ht
    refine ⟨0, ?_, by norm_num⟩
    simp only [addUsedTopic, saveUsedTopics, loadUsedTopics, if_true]
    by_cases h : t = "React.js"
    · rw [h]
      exact mem_assign_self _ _ _
    · exact (mem_assign_of_ne _ _ _ _ _ h).2 ((mem_allUsed 0 t 0).2 ⟨ht, rfl⟩)
  have hpick := getRandomTopic_of_reset 0 0 (fun _ => 1) (fun _ => true)
    (addUsedTopic 0 true "React.js" (some (allUsed 0))) hnil rfl
  have hrun : runAll [StoreOp.pick 0 2 (fun _ => 1) (fun _ => true)]
      (addUsedTopic 0 true "React.js" (some (allUsed 0))) = (some [], [Event.reset true]) := by
    simp only [runAll, StoreOp.run]
    rw [hpick]
    rfl
  refine ⟨by decide, uniqueKeys_allUsed 0, by norm_num, ?_, hrun, ?_⟩
  · intro op hop
    rw [List.mem_singleton] at hop
    subst hop
    intro i
    simp
  · rw [hrun, getAvailableTopics_empty]
    decide

/-- Claim C1, amended (cooldown window): let `addUsedTopic` record the catalog topic `t` with
timestamp `T` in a store with unique keys, and let further calls follow.  A query at a time
`T'` with `T' - T < 604800000`, the calls in between happening between `T` and `T'` and none
of them writing a reset, returns a list without `t`; a query at a time `T'` with
`T' - T ≥ 604800000`, none of the calls in between marking `t` again, returns a list with
`t`. -/
theorem cooldown_without_reset (t : String) (T T' : Int) (written : Bool) (file : File)
    (ops : List StoreOp) (ht : t ∈ topics) (hu : UniqueKeys (loadUsedTopics file)) :
    (T' - T < 604800000 → (∀ op ∈ ops, op.between T T') →
      Event.reset true ∉ (runAll ops (addUsedTopic T true t file)).2 →
      t ∉ (getAvailableTopics T' written (runAll ops (addUsedTopic T true t file)).1).1) ∧
    (604800000 ≤ T' - T → (∀ now w, StoreOp.mark t now w ∉ ops) →
      t ∈ (getAvailableTopics T' written (runAll ops (addUsedTopic T true t file)).1).1) := by
  have hu' : UniqueKeys (loadUsedTopics (addUsedTopic T true t file)) :=
    uniqueKeys_assign _ _ _ hu
  have hself : (t, T) ∈ loadUsedTopics (addUsedTopic T true t file) := mem_assign_self _ _ _
  constructor
  · intro hfresh htime hreset hmem
    obtain ⟨_, v, hv, hTv⟩ := runAll_invariant
      (fun m => UniqueKeys m ∧ ∃ v, (t, v) ∈ m ∧ T ≤ v) ops (addUsedTopic T true t file)
      (fun op hop f hr hf => run_keeps_entry t T T' op f hfresh (htime op hop) hr hf)
      hreset ⟨hu', T, hself, le_refl T⟩
    rw [mem_getAvailableTopics] at hmem
    exact hmem.2 ((mem_keys_cleanUpUsedTopics _ _ _).2 ⟨v, hv, by omega⟩)
  · intro hold hmark
    have honly := (runAll_only_entry t T ops (addUsedTopic T true t file) hmark
      ⟨hu', fun v hv => (mem_assign_same _ _ _ _ hu).1 hv⟩).2
    rw [mem_getAvailableTopics]
    refine ⟨ht, ?_⟩
    rw [mem_keys_cleanUpUsedTopics]
    rintro ⟨v, hv, hf⟩
    have := honly v hv
    omega

/-- Witness of the amended C1: `"React.js"` is marked at time `0` in an absent store; after
`sampleCalls`, which mark it again at time 600, a query at time 1000 does not return it;
after `otherCalls` a query at time 604800000 returns it. -/
theorem cooldown_without_reset_witness :
    ("React.js" ∈ topics ∧ UniqueKeys (loadUsedTopics none) ∧
      (1000 : Int) - 0 < 604800000 ∧ (∀ op ∈ sampleCalls, op.between 0 1000) ∧
      Event.reset true ∉ (runAll sampleCalls (addUsedTopic 0 true "React.js" none)).2 ∧
      (604800000 : Int) ≤ 604800000 - 0 ∧
      (∀ now w, StoreOp.mark "React.js" now w ∉ otherCalls)) ∧
    "React.js" ∉
      (getAvailableTopics 1000 true
        (runAll sampleCalls (addUsedTopic 0 true "React.js" none)).1).1 ∧
    "React.js" ∈
      (getAvailableTopics 604800000 true
        (runAll otherCalls (addUsedTopic 0 true "React.js" none)).1).1 := by
  have htime : ∀ op ∈ sampleCalls, op.between 0 1000 := by
    intro op h
    simp only [sampleCalls, List.mem_cons, List.mem_singleton, List.mem_nil_iff,
      or_false] at h
    rcases h with rfl | rfl | rfl | rfl <;> simp [StoreOp.between]
  have hreset : Event.reset true ∉
      (runAll sampleCalls (addUsedTopic 0 true "React.js" none)).2 := by
    simp only [sampleCalls, runAll, StoreOp.run, List.nil_append, List.append_nil,
      List.mem_append, List.mem_cons, List.mem_singleton, List.mem_nil_iff, not_or]
    refine ⟨?_, ?_, by simp⟩
    · simp
    · intro hmem
      obtain ⟨i, hi⟩ := getRandomTopic_events _ _ _ _ _ _ hmem
      simp at hi
  have hmark : ∀ now w, StoreOp.mark "React.js" now w ∉ otherCalls := by
    intro now w h
    simp only [otherCalls, List.mem_cons, List.mem_singleton, List.mem_nil_iff, or_false,
      StoreOp.mark.injEq, reduceCtorEq, false_or] at h
    exact absurd h.1 (by decide)
  exact ⟨⟨by decide, by decide, by norm_num, htime, hreset, by norm_num, hmark⟩,
    (cooldown_without_reset "React.js" 0 1000 true none sampleCalls (by decide)
      (by decide)).1 (by norm_num) htime hreset,
    (cooldown_without_reset "React.js" 0 604800000 true none otherCalls (by decide)
      (by decide)).2 (by norm_num) hmark⟩

end PostBot
